import Mathlib

/-!
Verification of the candidate-extraction, deduplication and semantic-review
pipeline of the a11y repository (`src/core/axe_runner.py` and
`src/core/rag_reviewer.py`).

The Python sources are shallowly embedded: pure fragments become Lean
functions; the Playwright page (DOM/visual context provider) and the OpenAI
verdict service are modelled as oracle functions supplied in an environment
record, exactly at the boundary where the Python code calls into them; file
writes are modelled as an explicit trace of (path, content) pairs.  Python
strings are modelled as Lean `String`/`List Char`, Python dicts that the code
builds with a fixed literal shape become structures, and JSON values become
the inductive `Json` below.
-/

set_option maxHeartbeats 1000000

namespace A11y

/-! ## Python string primitives used by the sources -/

/-- Python `str.lower` restricted to the ASCII case mapping, which is all the
sources rely on (tags like `WCAG111`, link texts like `Click Here`). -/
def pyLower (s : String) : String := String.mk (s.data.map Char.toLower)

/-- Whitespace stripped by Python `str.strip()` (ASCII whitespace). -/
def pySpace (c : Char) : Bool :=
  c = ' ' ∨ c = '\t' ∨ c = '\n' ∨ c = '\r' ∨ c = '\x0b' ∨ c = '\x0c'

/-- Python `str.strip()`. -/
def pyStrip (s : String) : String :=
  String.mk (((s.data.dropWhile pySpace).reverse.dropWhile pySpace).reverse)

/-- Python slicing `s[:n]` (truncation to at most `n` characters). -/
def pyTake (n : Nat) (s : String) : String := String.mk (s.data.take n)

/-- Python substring test `pat in hay` on character lists (`"" in s` is true). -/
def hasSub (pat : List Char) : List Char → Bool
  | [] => pat.isEmpty
  | c :: rest => pat.isPrefixOf (c :: rest) || hasSub pat rest

/-- Python substring test on strings. -/
def strIn (pat hay : String) : Bool := hasSub pat.data hay.data

/-- Python `s.split(sep, 1)[1]`: everything after the first occurrence of
`sep` (the sources only call it under a guard that `sep` occurs). -/
def splitOnceAfter (sep : List Char) : List Char → List Char
  | [] => []
  | c :: rest =>
      if sep.isPrefixOf (c :: rest) then (c :: rest).drop sep.length
      else splitOnceAfter sep rest

/-- Index of the first occurrence of a character, if any. -/
def pyFindIdx (ch : Char) : List Char → Option Nat
  | [] => none
  | c :: rest => if c = ch then some 0 else (pyFindIdx ch rest).map (· + 1)

/-- Python `text.find(ch)`: index of the first occurrence, `-1` if absent. -/
def pyFind (cs : List Char) (ch : Char) : Int :=
  match pyFindIdx ch cs with
  | some i => (i : Int)
  | none => -1

/-- Python `text.rfind(ch)`: index of the last occurrence, `-1` if absent. -/
def pyRFind (cs : List Char) (ch : Char) : Int :=
  match pyFindIdx ch cs.reverse with
  | some i => ((cs.length - 1 - i : Nat) : Int)
  | none => -1

/-- Python `f-string` field `{i:03d}`: decimal rendering of `i` left-padded
with zeros to width 3. -/
def pad3 (i : Nat) : String :=
  let d := toString i
  (String.mk (List.replicate (3 - d.length) '0')) ++ d

/-! ## JSON values

Python-side JSON values (`json.loads` results, dict literals fed to
`json.dumps`).  Numbers are scaled decimals `mantissa / 10 ^ exp10`, which
covers every numeric literal the sources produce (`0.4`, `0.5`, integers)
and every number the embedded parser accepts. -/

/-- A JSON number as a scaled decimal: the value is `mantissa / 10 ^ exp10`. -/
structure JNum where
  mantissa : Int
  exp10 : Nat
deriving DecidableEq, Repr

/-- JSON values. Objects keep key order as Python dicts do. -/
inductive Json where
  | null : Json
  | bool : Bool → Json
  | num : JNum → Json
  | str : String → Json
  | arr : List Json → Json
  | obj : List (String × Json) → Json

/-- Python truthiness of a JSON value (`not tech_doc`, `trim(snap) or {}`). -/
def pyTruthy : Json → Bool
  | .null => false
  | .bool b => b
  | .num n => n.mantissa ≠ 0
  | .str s => s ≠ ""
  | .arr xs => ¬ xs.isEmpty
  | .obj kvs => ¬ kvs.isEmpty

/-- Python `str(value)` as `str.format` applies it to an interpolated value
(the sources only ever interpolate strings or `None`). -/
def pyStr : Json → String
  | .null => "None"
  | .bool true => "True"
  | .bool false => "False"
  | .str s => s
  | .num n => toString n.mantissa
  | .arr _ => ""
  | .obj _ => ""

/-- Python `dict.get(key)` over an insertion-ordered dict modelled as an
association list with distinct keys: the stored value, else `None`. -/
def dictGet (kvs : List (String × Json)) (k : String) : Json :=
  match kvs.find? (fun p => p.1 = k) with
  | some p => p.2
  | none => .null

/-- Membership `k in dict`. -/
def dictHas (kvs : List (String × Json)) (k : String) : Bool :=
  (kvs.find? (fun p => p.1 = k)).isSome

/-- The decimal rendering Python gives the number literals flowing through
the pipeline: integers plainly, scaled decimals with a decimal point. -/
def decimalString (n : JNum) : String :=
  if n.exp10 = 0 then toString n.mantissa
  else
    let a := n.mantissa.natAbs
    let ds := Nat.toDigits 10 a
    let ds := if ds.length ≤ n.exp10 then List.replicate (n.exp10 + 1 - ds.length) '0' ++ ds else ds
    (if n.mantissa < 0 then "-" else "")
      ++ String.mk (ds.take (ds.length - n.exp10)) ++ "." ++ String.mk (ds.drop (ds.length - n.exp10))

/-- Hexadecimal digit characters, least value first. -/
def hexDigitChars : List Char := "0123456789abcdef".data

/-- The hexadecimal digit character for `n < 16` (out of range yields `0`,
which never occurs in the pipeline). -/
def hexChar (n : Nat) : Char := hexDigitChars.getD n '0'

/-- JSON string escaping as `json.dumps(..., ensure_ascii=False)` performs it:
quote and backslash are escaped, control characters use their short escapes
or a `\u00XX` form, everything else (including non-ASCII) passes through. -/
def escJsonChar (c : Char) : List Char :=
  if c = '"' then ['\\', '"']
  else if c = '\\' then ['\\', '\\']
  else if c = '\n' then ['\\', 'n']
  else if c = '\t' then ['\\', 't']
  else if c = '\r' then ['\\', 'r']
  else if c = '\x08' then ['\\', 'b']
  else if c = '\x0c' then ['\\', 'f']
  else if c.toNat < 0x20 then
    ['\\', 'u', '0', '0', hexChar (c.toNat / 16), hexChar (c.toNat % 16)]
  else [c]

/-- A JSON-encoded string literal with surrounding quotes. -/
def jsonStringLit (s : String) : String :=
  "\"" ++ String.mk (s.data.flatMap escJsonChar) ++ "\""

mutual

/-- Compact `json.dumps(v, ensure_ascii=False)`: the default separators are
a comma-space between items and a colon-space after keys. -/
def dumpsC : Json → String
  | .null => "null"
  | .bool true => "true"
  | .bool false => "false"
  | .num n => decimalString n
  | .str s => jsonStringLit s
  | .arr xs => "[" ++ String.intercalate ", " (dumpsCList xs) ++ "]"
  | .obj kvs => "\x7b" ++ String.intercalate ", " (dumpsCKvs kvs) ++ "\x7d"

def dumpsCList : List Json → List String
  | [] => []
  | x :: xs => dumpsC x :: dumpsCList xs

def dumpsCKvs : List (String × Json) → List String
  | [] => []
  | (k, v) :: kvs => (jsonStringLit k ++ ": " ++ dumpsC v) :: dumpsCKvs kvs

end

/-- Indentation prefix used by `json.dumps(..., indent=2)` at nesting level
`lvl`. -/
def ind2 (lvl : Nat) : String := String.mk (List.replicate (2 * lvl) ' ')

mutual

/-- Pretty `json.dumps(v, indent=2, ensure_ascii=False)`, rendered at nesting
level `lvl` (the caller indents the opening token). Empty containers render
on one line, exactly as Python does. -/
def dumpsI (lvl : Nat) : Json → String
  | .null => "null"
  | .bool true => "true"
  | .bool false => "false"
  | .num n => decimalString n
  | .str s => jsonStringLit s
  | .arr xs =>
      match dumpsIList (lvl + 1) xs with
      | [] => "[]"
      | items =>
          "[\n" ++ String.intercalate ",\n" (items.map (fun it => ind2 (lvl + 1) ++ it))
            ++ "\n" ++ ind2 lvl ++ "]"
  | .obj kvs =>
      match dumpsIKvs (lvl + 1) kvs with
      | [] => "\x7b\x7d"
      | items =>
          "\x7b\n" ++ String.intercalate ",\n" (items.map (fun it => ind2 (lvl + 1) ++ it))
            ++ "\n" ++ ind2 lvl ++ "\x7d"

def dumpsIList (lvl : Nat) : List Json → List String
  | [] => []
  | x :: xs => dumpsI lvl x :: dumpsIList lvl xs

def dumpsIKvs (lvl : Nat) : List (String × Json) → List String
  | [] => []
  | (k, v) :: kvs => (jsonStringLit k ++ ": " ++ dumpsI lvl v) :: dumpsIKvs lvl kvs

end

/-- `json.dumps(v, indent=2, ensure_ascii=False)`. -/
def dumpsIndent2 (v : Json) : String := dumpsI 0 v

/-- The ASCII `\uXXXX` escape of a 16-bit code unit. -/
def uEscape (n : Nat) : List Char :=
  ['\\', 'u', hexChar (n / 4096 % 16), hexChar (n / 256 % 16), hexChar (n / 16 % 16),
   hexChar (n % 16)]

/-- JSON string escaping as `json.dumps` performs it by default
(`ensure_ascii=True`): printable ASCII passes through apart from quote and
backslash, control characters use their short escapes or `\u00XX`, and every
character outside `0x20`–`0x7e` is `\u`-escaped, a code point beyond the
Basic Multilingual Plane as its UTF-16 surrogate pair. -/
def escJsonCharAscii (c : Char) : List Char :=
  if c.toNat < 0x7f then escJsonChar c
  else if c.toNat < 0x10000 then uEscape c.toNat
  else
    uEscape (0xd800 + (c.toNat - 0x10000) / 0x400) ++ uEscape (0xdc00 + (c.toNat - 0x10000) % 0x400)

/-- A JSON-encoded string literal under the default `ensure_ascii=True`. -/
def jsonStringLitAscii (s : String) : String :=
  "\"" ++ String.mk (s.data.flatMap escJsonCharAscii) ++ "\""

mutual

/-- Pretty `json.dumps(v, indent=2)` with the default `ensure_ascii=True`,
rendered at nesting level `lvl`; only string escaping differs from `dumpsI`. -/
def dumpsA (lvl : Nat) : Json → String
  | .null => "null"
  | .bool true => "true"
  | .bool false => "false"
  | .num n => decimalString n
  | .str s => jsonStringLitAscii s
  | .arr xs =>
      match dumpsAList (lvl + 1) xs with
      | [] => "[]"
      | items =>
          "[\n" ++ String.intercalate ",\n" (items.map (fun it => ind2 (lvl + 1) ++ it))
            ++ "\n" ++ ind2 lvl ++ "]"
  | .obj kvs =>
      match dumpsAKvs (lvl + 1) kvs with
      | [] => "\x7b\x7d"
      | items =>
          "\x7b\n" ++ String.intercalate ",\n" (items.map (fun it => ind2 (lvl + 1) ++ it))
            ++ "\n" ++ ind2 lvl ++ "\x7d"

def dumpsAList (lvl : Nat) : List Json → List String
  | [] => []
  | x :: xs => dumpsA lvl x :: dumpsAList lvl xs

def dumpsAKvs (lvl : Nat) : List (String × Json) → List String
  | [] => []
  | (k, v) :: kvs => (jsonStringLitAscii k ++ ": " ++ dumpsA lvl v) :: dumpsAKvs lvl kvs

end

/-- `json.dumps(v, indent=2)` with the default `ensure_ascii=True`. -/
def dumpsIndent2Ascii (v : Json) : String := dumpsA 0 v

/-! ## SHA-256

`hashlib.sha256`, embedded over `Nat` with explicit reduction modulo `2^32`.
The review pass only uses `sha256(prompt.encode("utf-8")).hexdigest()[:16]`. -/

/-- Reduction to a 32-bit word. -/
def w32 (n : Nat) : Nat := n % 4294967296

/-- Right rotation of a 32-bit word by `k`. -/
def rotr (k n : Nat) : Nat := w32 ((n >>> k) ||| (n <<< (32 - k)))

/-- Bitwise complement of a 32-bit word. -/
def w32not (n : Nat) : Nat := 4294967295 ^^^ n

def bigSigma0 (x : Nat) : Nat := rotr 2 x ^^^ rotr 13 x ^^^ rotr 22 x

def bigSigma1 (x : Nat) : Nat := rotr 6 x ^^^ rotr 11 x ^^^ rotr 25 x

def smallSigma0 (x : Nat) : Nat := rotr 7 x ^^^ rotr 18 x ^^^ (x >>> 3)

def smallSigma1 (x : Nat) : Nat := rotr 17 x ^^^ rotr 19 x ^^^ (x >>> 10)

/-- The eight working variables / hash words of SHA-256. -/
structure Hash8 where
  a : Nat
  b : Nat
  c : Nat
  d : Nat
  e : Nat
  f : Nat
  g : Nat
  h : Nat

/-- SHA-256 initial hash value. -/
def sha256Init : Hash8 :=
  ⟨0x6a09e667, 0xbb67ae85, 0x3c6ef372, 0xa54ff53a,
   0x510e527f, 0x9b05688c, 0x1f83d9ab, 0x5be0cd19⟩

/-- SHA-256 round constants. -/
def sha256K : List Nat :=
  [0x428a2f98, 0x71374491, 0xb5c0fbcf, 0xe9b5dba5, 0x3956c25b, 0x59f111f1, 0x923f82a4, 0xab1c5ed5]
    ++ [0xd807aa98, 0x12835b01, 0x243185be, 0x550c7dc3, 0x72be5d74, 0x80deb1fe, 0x9bdc06a7, 0xc19bf174]
    ++ [0xe49b69c1, 0xefbe4786, 0x0fc19dc6, 0x240ca1cc, 0x2de92c6f, 0x4a7484aa, 0x5cb0a9dc, 0x76f988da]
    ++ [0x983e5152, 0xa831c66d, 0xb00327c8, 0xbf597fc7, 0xc6e00bf3, 0xd5a79147, 0x06ca6351, 0x14292967]
    ++ [0x27b70a85, 0x2e1b2138, 0x4d2c6dfc, 0x53380d13, 0x650a7354, 0x766a0abb, 0x81c2c92e, 0x92722c85]
    ++ [0xa2bfe8a1, 0xa81a664b, 0xc24b8b70, 0xc76c51a3, 0xd192e819, 0xd6990624, 0xf40e3585, 0x106aa070]
    ++ [0x19a4c116, 0x1e376c08, 0x2748774c, 0x34b0bcb5, 0x391c0cb3, 0x4ed8aa4a, 0x5b9cca4f, 0x682e6ff3]
    ++ [0x748f82ee, 0x78a5636f, 0x84c87814, 0x8cc70208, 0x90befffa, 0xa4506ceb, 0xbef9a3f7, 0xc67178f2]

/-- A big-endian 32-bit word from four bytes. -/
def wordOfBytes (b0 b1 b2 b3 : Nat) : Nat := ((b0 * 256 + b1) * 256 + b2) * 256 + b3

/-- The sixteen message words of one 64-byte chunk. -/
def chunkWords (chunk : List Nat) : List Nat :=
  (List.range 16).map (fun i =>
    wordOfBytes (chunk.getD (4 * i) 0) (chunk.getD (4 * i + 1) 0)
      (chunk.getD (4 * i + 2) 0) (chunk.getD (4 * i + 3) 0))

/-- The 64-word message schedule of one chunk. -/
def msgSchedule (chunk : List Nat) : List Nat :=
  (List.range 48).foldl
    (fun ws _ =>
      ws ++ [w32 (smallSigma1 (ws.getD (ws.length - 2) 0) + ws.getD (ws.length - 7) 0
        + smallSigma0 (ws.getD (ws.length - 15) 0) + ws.getD (ws.length - 16) 0)])
    (chunkWords chunk)

/-- One compression round with constant `k` and schedule word `w`. -/
def sha256Round (st : Hash8) (kw : Nat × Nat) : Hash8 :=
  let s1 := bigSigma1 st.e
  let ch := (st.e &&& st.f) ^^^ (w32not st.e &&& st.g)
  let temp1 := w32 (st.h + s1 + ch + kw.1 + kw.2)
  let s0 := bigSigma0 st.a
  let maj := (st.a &&& st.b) ^^^ (st.a &&& st.c) ^^^ (st.b &&& st.c)
  let temp2 := w32 (s0 + maj)
  ⟨w32 (temp1 + temp2), st.a, st.b, st.c, w32 (st.d + temp1), st.e, st.f, st.g⟩

/-- Compression of one 64-byte chunk into the running hash. -/
def sha256Compress (st : Hash8) (chunk : List Nat) : Hash8 :=
  let r := (sha256K.zip (msgSchedule chunk)).foldl sha256Round st
  ⟨w32 (st.a + r.a), w32 (st.b + r.b), w32 (st.c + r.c), w32 (st.d + r.d),
   w32 (st.e + r.e), w32 (st.f + r.f), w32 (st.g + r.g), w32 (st.h + r.h)⟩

/-- The eight big-endian length bytes of a bit count. -/
def lenBytes (n : Nat) : List Nat := (List.range 8).map (fun i => (n >>> (8 * (7 - i))) % 256)

/-- SHA-256 message padding: `0x80`, zeros to 56 mod 64, 64-bit bit length. -/
def sha256Pad (ms : List Nat) : List Nat :=
  ms ++ [0x80] ++ List.replicate ((64 + 55 - ms.length % 64) % 64) 0 ++ lenBytes (8 * ms.length)

/-- The final hash state over a byte sequence. -/
def sha256Words (ms : List Nat) : Hash8 :=
  let padded := sha256Pad ms
  ((List.range (padded.length / 64)).map (fun i => (padded.drop (64 * i)).take 64)).foldl
    sha256Compress sha256Init

/-- The eight hex characters of one 32-bit word, most significant first. -/
def wordHex (w : Nat) : List Char := (List.range 8).map (fun i => hexChar ((w >>> (4 * (7 - i))) % 16))

/-- `hashlib.sha256(ms).hexdigest()` as a character list (64 hex characters). -/
def sha256HexChars (ms : List Nat) : List Char :=
  let st := sha256Words ms
  wordHex st.a ++ wordHex st.b ++ wordHex st.c ++ wordHex st.d
    ++ wordHex st.e ++ wordHex st.f ++ wordHex st.g ++ wordHex st.h

/-- The UTF-8 bytes of a string (`prompt.encode("utf-8")`). -/
def strBytes (s : String) : List Nat := s.toUTF8.toList.map (fun b => b.toNat)

/-- `sha256(prompt.encode("utf-8")).hexdigest()[:16]`: the traceability hash
the review pass stores for each candidate. -/
def promptHash (prompt : String) : String :=
  String.mk ((sha256HexChars (strBytes prompt)).take 16)

/-! ## A subset model of `json.loads`

The verdict adapter parses the service response with `json.loads`.  The
parser below covers the JSON fragment relevant to verdict objects: objects,
arrays, strings with the standard escapes, integers and decimal fractions
(no exponents), `true`/`false`/`null`, with Python's strictness about
unescaped control characters and trailing data.  Recursion is by an explicit
fuel that `parseJson` instantiates above the input length, so well-formed
inputs never exhaust it. -/

/-- JSON inter-token whitespace. -/
def jsonWs (c : Char) : Bool := c = ' ' ∨ c = '\t' ∨ c = '\n' ∨ c = '\r'

def skipWs (cs : List Char) : List Char := cs.dropWhile jsonWs

/-- Value of a list of decimal digit characters. -/
def digitsVal (ds : List Char) : Nat := ds.foldl (fun a c => a * 10 + (c.toNat - 48)) 0

/-- Value of a hexadecimal digit character. -/
def hexVal (c : Char) : Nat :=
  if c.isDigit then c.toNat - 48
  else if 'a' ≤ c ∧ c ≤ 'f' then c.toNat - 87
  else if 'A' ≤ c ∧ c ≤ 'F' then c.toNat - 55
  else 0

/-- Whether a character is a hexadecimal digit. -/
def isHexDigit (c : Char) : Bool :=
  c.isDigit ∨ ('a' ≤ c ∧ c ≤ 'f') ∨ ('A' ≤ c ∧ c ≤ 'F')

/-- The body of a JSON string literal after the opening quote: the decoded
characters and the remaining input past the closing quote. -/
def parseStrChars : List Char → Except String (List Char × List Char)
  | [] => .error "Unterminated string"
  | '"' :: rest => .ok ([], rest)
  | '\\' :: 'u' :: h1 :: h2 :: h3 :: h4 :: rest =>
      if isHexDigit h1 ∧ isHexDigit h2 ∧ isHexDigit h3 ∧ isHexDigit h4 then
        (fun p => (Char.ofNat (((hexVal h1 * 16 + hexVal h2) * 16 + hexVal h3) * 16 + hexVal h4) :: p.1, p.2))
          <$> parseStrChars rest
      else .error "Invalid \\uXXXX escape"
  | '\\' :: e :: rest =>
      let dec : Option Char :=
        if e = '"' then some '"'
        else if e = '\\' then some '\\'
        else if e = '/' then some '/'
        else if e = 'b' then some '\x08'
        else if e = 'f' then some '\x0c'
        else if e = 'n' then some '\n'
        else if e = 'r' then some '\r'
        else if e = 't' then some '\t'
        else none
      match dec with
      | some c => (fun p => (c :: p.1, p.2)) <$> parseStrChars rest
      | none => .error "Invalid \\escape"
  | c :: rest =>
      if c.toNat < 32 then .error "Invalid control character"
      else (fun p => (c :: p.1, p.2)) <$> parseStrChars rest

/-- A JSON number starting at the input (integer or decimal fraction). -/
def parseNum (cs : List Char) : Except String (Json × List Char) :=
  let negRest : Bool × List Char := match cs with | '-' :: rest => (true, rest) | _ => (false, cs)
  let ipart := negRest.2.takeWhile Char.isDigit
  let cs2 := negRest.2.dropWhile Char.isDigit
  if ipart.isEmpty then .error "Expecting value"
  else
    match cs2 with
    | '.' :: cs3 =>
        let fpart := cs3.takeWhile Char.isDigit
        let cs4 := cs3.dropWhile Char.isDigit
        if fpart.isEmpty then .error "Expecting digits after decimal point"
        else
          let m : Int := (digitsVal (ipart ++ fpart) : Nat)
          .ok (.num ⟨if negRest.1 then -m else m, fpart.length⟩, cs4)
    | _ =>
        let m : Int := (digitsVal ipart : Nat)
        .ok (.num ⟨if negRest.1 then -m else m, 0⟩, cs2)

mutual

/-- A JSON value starting at the input (whitespace already allowed). -/
def parseVal : Nat → List Char → Except String (Json × List Char)
  | 0, _ => .error "Recursion limit exceeded"
  | fuel + 1, cs =>
      match skipWs cs with
      | [] => .error "Expecting value"
      | c :: rest =>
          if c = '\x7b' then parseMembers fuel rest true []
          else if c = '[' then parseItems fuel rest true []
          else if c = '"' then
            (fun p => (Json.str (String.mk p.1), p.2)) <$> parseStrChars rest
          else if c = 't' then
            match rest with
            | 'r' :: 'u' :: 'e' :: rest' => .ok (.bool true, rest')
            | _ => .error "Expecting value"
          else if c = 'f' then
            match rest with
            | 'a' :: 'l' :: 's' :: 'e' :: rest' => .ok (.bool false, rest')
            | _ => .error "Expecting value"
          else if c = 'n' then
            match rest with
            | 'u' :: 'l' :: 'l' :: rest' => .ok (.null, rest')
            | _ => .error "Expecting value"
          else if c = '-' ∨ c.isDigit then parseNum (c :: rest)
          else .error "Expecting value"

/-- The members of an object after the opening brace; `first` marks whether
no member has been read yet (so a closing brace is allowed immediately). -/
def parseMembers (fuel : Nat) (cs : List Char) (first : Bool) (acc : List (String × Json)) :
    Except String (Json × List Char) :=
  match fuel with
  | 0 => .error "Recursion limit exceeded"
  | fuel + 1 =>
      match skipWs cs with
      | [] => .error "Expecting property name"
      | c :: rest =>
          if c = '\x7d' ∧ first then .ok (.obj acc.reverse, rest)
          else if c = '"' then
            match parseStrChars rest with
            | .error e => .error e
            | .ok (key, rest1) =>
                match skipWs rest1 with
                | ':' :: rest2 =>
                    match parseVal fuel rest2 with
                    | .error e => .error e
                    | .ok (v, rest3) =>
                        match skipWs rest3 with
                        | ',' :: rest4 => parseMembers fuel rest4 false ((String.mk key, v) :: acc)
                        | c' :: rest4 =>
                            if c' = '\x7d' then .ok (.obj (((String.mk key, v) :: acc).reverse), rest4)
                            else .error "Expecting comma"
                        | [] => .error "Expecting comma"
                | _ => .error "Expecting colon"
          else .error "Expecting property name"

/-- The items of an array after the opening bracket. -/
def parseItems (fuel : Nat) (cs : List Char) (first : Bool) (acc : List Json) :
    Except String (Json × List Char) :=
  match fuel with
  | 0 => .error "Recursion limit exceeded"
  | fuel + 1 =>
      match skipWs cs with
      | [] => .error "Expecting value"
      | c :: rest =>
          if c = ']' ∧ first then .ok (.arr acc.reverse, rest)
          else
            match parseVal fuel (c :: rest) with
            | .error e => .error e
            | .ok (v, rest1) =>
                match skipWs rest1 with
                | ',' :: rest2 => parseItems fuel rest2 false (v :: acc)
                | ']' :: rest2 => .ok (.arr ((v :: acc).reverse), rest2)
                | _ => .error "Expecting comma"

end

/-- `json.loads(s)` over the subset above: one value, then only whitespace. -/
def parseJson (s : String) : Except String Json :=
  match parseVal (s.length + 16) s.data with
  | .error e => .error e
  | .ok (v, rest) => if (skipWs rest).isEmpty then .ok v else .error "Extra data"

/-! ## `src/core/axe_runner.py`: scan result model and helpers -/

/-- One entry of a node's `any`/`all`/`none` diagnostic lists. -/
structure AxeItem where
  id : Option String
  message : Option String
  data : Option String

/-- One element node under a rule result.  `target` is the rule's target
selector list (axe emits strings there). -/
structure AxeNode where
  target : List String
  html : Option String
  failureSummary : Option String
  anyItems : List AxeItem
  allItems : List AxeItem
  noneItems : List AxeItem

/-- The selector the runner reads from a node: `(n.get("target") or [""])[0]`,
the first target entry, or the empty string when the list is empty. -/
def firstTarget (n : AxeNode) : String :=
  match n.target with
  | [] => ""
  | s :: _ => s

/-- One rule result of the axe payload. -/
structure AxeRule where
  id : String
  tags : List String
  help : Option String
  helpUrl : Option String
  impact : Option String
  nodes : List AxeNode

/-- The axe payload restricted to the three buckets the runner reads. -/
structure AxePayload where
  violations : List AxeRule
  incomplete : List AxeRule
  passes : List AxeRule

/-- The DOM/visual context provider (the Playwright page), modelled as
oracle functions at exactly the boundary where `axe_runner.py` calls into
it.  Each oracle stands for one external call wrapped by the source in its
own try/except, so its value is the final (possibly defaulted) result. -/
structure Env where
  /-- Whether `page.query_selector(sel)` resolves to an element. -/
  query : String → Bool
  /-- The raw accessibility snapshot `page.accessibility.snapshot(root=el)`. -/
  rawSnapshot : String → Json
  /-- The result of the nearby-text `page.evaluate` call (empty on failure). -/
  nearbyText : String → String
  /-- The result of the role/name-guess `page.evaluate` call (empty on failure). -/
  roleName : String → String
  /-- The attribute map from `page.eval_on_selector` on a resolving selector. -/
  attrs : String → List (String × String)
  /-- The raw `page.inner_text(sel)` after the `or ""` default. -/
  innerTextRaw : String → String
  /-- Whether the element is a descendant of `a` or `button` (`el.closest`). -/
  isFunctional : String → Bool
  /-- The saved path of `crop_element_screenshot(page, sel, path)`, `None`
  when the element or its box is missing or any step fails. -/
  screenshot : String → String → Option String

/-- The `wcag(\d)(\d)(\d)$` pattern applied at one position of an
already-lowered character list: the dotted digit group join on success.
Python's `$` also matches just before one trailing newline, which the model
preserves; digits and the case mapping are modelled over ASCII, which covers
axe's tag alphabet. -/
def wcagMatchAt : List Char → Option String
  | 'w' :: 'c' :: 'a' :: 'g' :: d1 :: d2 :: d3 :: rest =>
      if d1.isDigit ∧ d2.isDigit ∧ d3.isDigit ∧ (rest = [] ∨ rest = ['\n']) then
        some (String.mk [d1, '.', d2, '.', d3])
      else none
  | _ => none

/-- The anchored `re.match(r"wcag(\d)(\d)(\d)$", t.lower())` of
`_extract_scs`, which is also `_WCAG_TAG_REGEX.match(t)` of the reviewer
(the compiled pattern is case-insensitive, so lowering first is equivalent). -/
def wcagTagMatch (t : String) : Option String := wcagMatchAt (pyLower t).data

/-- `_extract_scs(tags)`: the dotted success criteria of the tags matching
the wcag tag pattern, in tag order; other tags are ignored. -/
def extract_scs (tags : List String) : List String :=
  tags.foldr (fun t acc => match wcagTagMatch t with | some sc => sc :: acc | none => acc) []

/-- `_primary_sc(scs)`. -/
def primary_sc (scs : List String) : Option String := scs.head?

/-- The `topic` computed for a rule: `f"SC-{_primary_sc(scs)}" if scs else
"BEST_PRACTICE"`. -/
def topicOf (scs : List String) : String :=
  if scs.isEmpty then "BEST_PRACTICE" else "SC-" ++ scs.headD ""

/-- Python `str.strip(": ")`: both ends stripped of colons and spaces. -/
def pyStripColonSpace (s : String) : String :=
  let inSet := fun c => c = ':' ∨ c = ' '
  String.mk (((s.data.dropWhile inSet).reverse.dropWhile inSet).reverse)

/-- One line of `_msgs`: `f"{mid}: {msg}".strip(": ").strip()` with the
`or`-defaulting of the source. -/
def msgsOne (it : AxeItem) : String :=
  let mid := it.id.getD ""
  let msg :=
    if (it.message.getD "") ≠ "" then it.message.getD ""
    else if (it.data.getD "") ≠ "" then it.data.getD "" else ""
  pyStrip (pyStripColonSpace (mid ++ ": " ++ msg))

/-- `_msgs(items)`. -/
def msgs (items : List AxeItem) : List String := items.map msgsOne

/-- A character the filename sanitizer keeps: `[a-zA-Z0-9._-]`. -/
def allowedFileChar (c : Char) : Bool :=
  ('a' ≤ c ∧ c ≤ 'z') ∨ ('A' ≤ c ∧ c ≤ 'Z') ∨ c.isDigit ∨ c = '.' ∨ c = '_' ∨ c = '-'

/-- Run collapser for `re.sub(r"[^a-zA-Z0-9._-]+", "_", s)`: `inRun` records
whether the previous character already belonged to a replaced run. -/
def subRunsGo (inRun : Bool) : List Char → List Char
  | [] => []
  | c :: rest =>
      if allowedFileChar c then c :: subRunsGo false rest
      else if inRun then subRunsGo true rest
      else '_' :: subRunsGo true rest

/-- `re.sub(r"[^a-zA-Z0-9._-]+", "_", s)`: every maximal run of other
characters becomes one underscore. -/
def subRuns (cs : List Char) : List Char := subRunsGo false cs

/-- `sanitize_filename(s)`. -/
def sanitize_filename (s : String) : String := pyTake 120 (String.mk (subRuns s.data))

mutual

/-- The `trim` closure of `get_accessibility_snapshot`: keep the four fields
`role`/`name`/`value`/`description` in that order, recurse into at most the
first four children; non-dict nodes pass through unchanged. -/
def trimAcc : Json → Json
  | .obj kvs =>
      .obj (((["role", "name", "value", "description"].filter (fun k => dictHas kvs k)).map
          (fun k => (k, dictGet kvs k))) ++ childEntry kvs)
  | j => j

/-- The `children` entry of the trimmed node, when the node has one. -/
def childEntry : List (String × Json) → List (String × Json)
  | [] => []
  | (k, v) :: rest => if k = "children" then [("children", trimChildren v)] else childEntry rest

/-- The trimmed first four children (the snapshot's children are a list). -/
def trimChildren : Json → Json
  | .arr xs => .arr (trimList 4 xs)
  | j => j

def trimList : Nat → List Json → List Json
  | _, [] => []
  | 0, _ => []
  | n + 1, x :: xs => trimAcc x :: trimList n xs

end

/-- `get_accessibility_snapshot(page, selector)`: `{}` when the selector does
not resolve, else `trim(snap) or {}`. -/
def get_accessibility_snapshot (env : Env) (selector : String) : Json :=
  if env.query selector then
    let t := trimAcc (env.rawSnapshot selector)
    if pyTruthy t then t else .obj []
  else .obj []

/-- The screenshot file path `screenshots/<sanitized>.png` for a rule id and
selector (`out_dir` is left implicit, paths are relative to it). -/
def shotPath (rid selector : String) : String :=
  "screenshots/" ++ sanitize_filename (rid ++ "__" ++ pyTake 60 selector) ++ ".png"

/-- A review candidate as `run_axe_on_url` writes it into `candidates.json`. -/
structure Candidate where
  page_url : String
  bucket : String
  topic : String
  sc_list : List String
  axe_rule_id : String
  axe_help : Option String
  axe_help_url : Option String
  impact : Option String
  selector : String
  html_snippet : String
  attributes : List (String × String)
  role_name_guess : String
  nearby_text : String
  acc_snapshot : Json
  screenshot : Option String
  failureSummary : Option String
  why_any : List String
  why_all : List String
  why_none : List String

/-- The candidate record built for a node in the must-review pass. -/
def mkMustCandidate (env : Env) (url : String) (r : AxeRule) (scs : List String)
    (topic : String) (n : AxeNode) (selector : String) : Candidate :=
  { page_url := url
    bucket := "must_review"
    topic := topic
    sc_list := scs
    axe_rule_id := r.id
    axe_help := r.help
    axe_help_url := r.helpUrl
    impact := r.impact
    selector := selector
    html_snippet := n.html.getD ""
    attributes := if env.query selector then env.attrs selector else []
    role_name_guess := env.roleName selector
    nearby_text := env.nearbyText selector
    acc_snapshot := get_accessibility_snapshot env selector
    screenshot := env.screenshot selector (shotPath r.id selector)
    failureSummary := n.failureSummary
    why_any := msgs n.anyItems
    why_all := msgs n.allItems
    why_none := msgs n.noneItems }

/-- The candidate record built for a node promoted from the passes bucket:
identical except for the bucket tag. -/
def mkPromoCandidate (env : Env) (url : String) (r : AxeRule) (scs : List String)
    (topic : String) (n : AxeNode) (selector : String) : Candidate :=
  { mkMustCandidate env url r scs topic n selector with bucket := "semantic_review" }

/-- The must-review node loop of one rule: emit a candidate per node unless
the selector is empty or the `(rule_id, selector)` key was already seen. -/
def mustNodes (env : Env) (url : String) (r : AxeRule) (scs : List String) (topic : String) :
    List AxeNode → List (String × String) → List Candidate × List (String × String)
  | [], seen => ([], seen)
  | n :: ns, seen =>
      let selector := firstTarget n
      if selector = "" then mustNodes env url r scs topic ns seen
      else if (r.id, selector) ∈ seen then mustNodes env url r scs topic ns seen
      else
        let p := mustNodes env url r scs topic ns ((r.id, selector) :: seen)
        (mkMustCandidate env url r scs topic n selector :: p.1, p.2)

/-- The must-review pass over the rules of `violations ++ incomplete`. -/
def mustRules (env : Env) (url : String) :
    List AxeRule → List (String × String) → List Candidate × List (String × String)
  | [], seen => ([], seen)
  | r :: rs, seen =>
      let scs := extract_scs r.tags
      let p1 := mustNodes env url r scs (topicOf scs) r.nodes seen
      let p2 := mustRules env url rs p1.2
      (p1.1 ++ p2.1, p2.2)

/-- The link texts whose exact (trimmed, lowered) match promotes a passing
`link-name` node. -/
def genericLinkTexts : List String := ["click here", "learn more", "read more"]

/-- The name substrings that make a passing `image-alt` node look generic. -/
def genericNameParts : List String := ["image", "photo", "img_", ".jpg", ".png"]

/-- The rendered text of a `link-name` node as the promotion heuristic
computes it: `(page.inner_text(sel) or "").strip().lower()` when the selector
resolves, else the empty string. -/
def linkTextOf (env : Env) (sel : String) : String :=
  if env.query sel then pyLower (pyStrip (env.innerTextRaw sel)) else ""

/-- Whether an `image-alt` node with a non-empty selector qualifies for
promotion: its lowered role/name guess (the part after the em dash when one
is present) contains a generic name part, or the element is functional
(`is_functional or generic` in the source, with the operands evaluated in
the source's order on the same page state). -/
def imageAltQualifies (env : Env) (sel : String) : Bool :=
  let role_name := pyLower (env.roleName sel)
  let rn := if strIn " — " role_name then String.mk (splitOnceAfter " — ".data role_name.data)
    else role_name
  let generic := genericNameParts.any (fun g => strIn g rn)
  env.isFunctional sel || generic

/-- The `image-alt` promotion loop: scan nodes for the first generic-looking
or functional image whose key is fresh; promote it and stop. -/
def promoImageAlt (env : Env) (url : String) (r : AxeRule) (scs : List String) (topic : String) :
    List AxeNode → List (String × String) → List Candidate × List (String × String)
  | [], seen => ([], seen)
  | n :: ns, seen =>
      let sel := firstTarget n
      if sel = "" then promoImageAlt env url r scs topic ns seen
      else if imageAltQualifies env sel then
        if (r.id, sel) ∈ seen then promoImageAlt env url r scs topic ns seen
        else ([mkPromoCandidate env url r scs topic n sel], (r.id, sel) :: seen)
      else promoImageAlt env url r scs topic ns seen

/-- The `link-name` promotion loop: scan nodes for the first one whose
rendered text equals a generic link text and whose key is fresh. -/
def promoLinkName (env : Env) (url : String) (r : AxeRule) (scs : List String) (topic : String) :
    List AxeNode → List (String × String) → List Candidate × List (String × String)
  | [], seen => ([], seen)
  | n :: ns, seen =>
      let sel := firstTarget n
      if sel = "" then promoLinkName env url r scs topic ns seen
      else if linkTextOf env sel ∈ genericLinkTexts then
        if (r.id, sel) ∈ seen then promoLinkName env url r scs topic ns seen
        else ([mkPromoCandidate env url r scs topic n sel], (r.id, sel) :: seen)
      else promoLinkName env url r scs topic ns seen

/-- The first node of a stream that the `image-alt` promotion loop promotes,
with its selector: non-empty selector, qualifying image, fresh key.  The
loop mutates nothing while scanning past non-qualifying nodes, so this
selection is well-defined. -/
def firstQualIA (env : Env) (rid : String) (seen : List (String × String)) :
    List AxeNode → Option (AxeNode × String)
  | [] => none
  | n :: ns =>
      let sel := firstTarget n
      if sel ≠ "" ∧ imageAltQualifies env sel = true ∧ (rid, sel) ∉ seen then some (n, sel)
      else firstQualIA env rid seen ns

/-- The first node of a stream that the `link-name` promotion loop promotes,
with its selector: non-empty selector, rendered text in the generic set,
fresh key. -/
def firstQualLN (env : Env) (rid : String) (seen : List (String × String)) :
    List AxeNode → Option (AxeNode × String)
  | [] => none
  | n :: ns =>
      let sel := firstTarget n
      if sel ≠ "" ∧ linkTextOf env sel ∈ genericLinkTexts ∧ (rid, sel) ∉ seen then some (n, sel)
      else firstQualLN env rid seen ns

/-- The heuristic promotion pass over the passes bucket: only the two rule
ids `image-alt` and `link-name` are inspected, each over at most its first
30 nodes. -/
def promoRules (env : Env) (url : String) :
    List AxeRule → List (String × String) → List Candidate × List (String × String)
  | [], seen => ([], seen)
  | r :: rs, seen =>
      if r.id ∉ (["image-alt", "link-name"] : List String) then promoRules env url rs seen
      else
        let scs := extract_scs r.tags
        let topic := topicOf scs
        let p1 := if r.id = "image-alt" then promoImageAlt env url r scs topic (r.nodes.take 30) seen
          else ([], seen)
        let p2 := if r.id = "link-name" then promoLinkName env url r scs topic (r.nodes.take 30) p1.2
          else ([], p1.2)
        let p3 := promoRules env url rs p2.2
        (p1.1 ++ p2.1 ++ p3.1, p3.2)

/-- The candidate-selection portion of `run_axe_on_url`: the must-review pass
over `violations` then `incomplete`, then the heuristic promotion from
`passes`, all sharing one `seen` key set. -/
def run_axe_candidates (env : Env) (url : String) (payload : AxePayload) : List Candidate :=
  let m := mustRules env url (payload.violations ++ payload.incomplete) []
  let p := promoRules env url payload.passes m.2
  m.1 ++ p.1

/-! ## `src/core/rag_reviewer.py`: helpers, prompt builder, verdict adapter -/

def wcagSearchGo : List Char → Option String
  | [] => none
  | c :: rest =>
      match wcagMatchAt (c :: rest) with
      | some r => some r
      | none => wcagSearchGo rest

/-- `_WCAG_TAG_REGEX.search(t)`: the leftmost match of the wcag tag pattern,
joined with dots. -/
def wcagSearch (t : String) : Option String := wcagSearchGo (pyLower t).data

/-- The `_SC_REGEX` matcher `(\d)\.(\d)\.(\d)` applied at one position. -/
def scMatchAt : List Char → Option String
  | d1 :: '.' :: d2 :: '.' :: d3 :: _ =>
      if d1.isDigit ∧ d2.isDigit ∧ d3.isDigit then some (String.mk [d1, '.', d2, '.', d3]) else none
  | _ => none

def scSearchGo : List Char → Option String
  | [] => none
  | c :: rest =>
      match scMatchAt (c :: rest) with
      | some r => some r
      | none => scSearchGo rest

/-- `_SC_REGEX.search(t)`: the leftmost dotted-digit triple of `t`. -/
def scSearch (t : String) : Option String := scSearchGo t.data

/-- Python `t.replace("sc-", "")` on an already-lowered character list. -/
def stripScDashes : List Char → List Char
  | 's' :: 'c' :: '-' :: rest => stripScDashes rest
  | c :: rest => c :: stripScDashes rest
  | [] => []

/-- `_norm_sc_from_topic(topic)`: accept `SC-1.1.1`, `1.1.1`, `wcag111` and
give `1.1.1`, or the empty string when nothing matches. -/
def norm_sc_from_topic (topic : String) : String :=
  let t := pyStrip topic
  match scSearch t with
  | some r => r
  | none =>
      match wcagSearch t with
      | some r => r
      | none =>
          let t2 := pyStrip (String.mk (stripScDashes (pyLower t).data))
          match scSearch t2 with
          | some r => r
          | none => ""

/-- `_scs_from_candidate(c)`: the `(sc_primary, sc_list)` pair.  The stored
`sc_list` entries are re-matched against the wcag tag pattern; when none
match, the primary criterion falls back to the topic string. -/
def scs_from_candidate (c : Candidate) : String × List String :=
  let sc_list := c.sc_list.foldr
    (fun t acc => match wcagTagMatch t with | some sc => sc :: acc | none => acc) []
  let sc_primary :=
    match sc_list.head? with
    | some s => s
    | none => norm_sc_from_topic c.topic
  (sc_primary, sc_list)

/-- A technique document from the knowledge base, as the JSON object it is
loaded from (`load_techniques` reads them from disk, so the review pass is
parameterised by the loaded list). -/
def jsonTagStrings : Json → List String
  | .arr xs => xs.map (fun x => pyLower (pyStr x))
  | _ => []

/-- `retrieve_for_sc(sc, techniques)`: the first document whose tag set or
topic references the criterion (case-insensitive), else the empty doc. -/
def retrieve_for_sc (sc : String) (techniques : List (List (String × Json))) :
    List (String × Json) :=
  let sc_l := pyLower sc
  match techniques.find? (fun t =>
    let tags := jsonTagStrings (dictGet t "tags")
    let topic := pyLower (match dictGet t "topic" with | .str s => s | _ => "")
    ("sc-" ++ sc_l) ∈ tags ∨ sc_l ∈ tags ∨ strIn sc_l topic) with
  | some t => t
  | none => []

/-- `_synth_context(sc, candidate)` (the candidate argument is unused by the
source as well). -/
def synth_context (sc : String) (_c : Candidate) : List (String × Json) :=
  [("topic", .str (if sc ≠ "" then "SC " ++ sc else "Unmapped rule")),
   ("do", .arr [.str "Apply WCAG techniques conservatively for this SC.",
                .str "Prefer 'needs-change' when meaning or programmatic name is unclear."]),
   ("dont", .arr [.str "Do not approve ambiguous or redundant alternatives.",
                  .str "Do not rely on visual presentation alone."]),
   ("edge_cases", .arr [])]

/-- `tech_doc.setdefault("do", []).append(s)` on a doc that has a `do` list
(the synthesized doc always does). -/
def appendDo (doc : List (String × Json)) (s : String) : List (String × Json) :=
  doc.map (fun p =>
    if p.1 = "do" then (p.1, match p.2 with | .arr xs => .arr (xs ++ [.str s]) | v => v) else p)

/-- Json from an optional string (`None` becomes `null`). -/
def optStr : Option String → Json
  | some s => .str s
  | none => .null

/-- Errors of Python `str.format`: an unknown named placeholder (KeyError), a
stray or unterminated structural brace (ValueError), a positional or
auto-numbered field with no positional arguments (IndexError). -/
inductive FmtErr where
  | keyErr (name : String)
  | valueErr (msg : String)
  | indexErr (msg : String)

/-- Errors `build_prompt` surfaces: the RuntimeError it raises for KeyError
and ValueError, and an IndexError it lets propagate. -/
inductive BuildErr where
  | runtimeErr (msg : String)
  | indexErr (msg : String)

/-- The field content up to the closing brace, together with the remaining
input (carrying its size bound for termination). -/
def splitAtBrace : (cs : List Char) → Option (List Char × { l : List Char // l.length < cs.length })
  | [] => none
  | '}' :: rest => some ([], ⟨rest, by simp⟩)
  | c :: rest =>
      match splitAtBrace rest with
      | none => none
      | some (n, ⟨r, h⟩) => some (c :: n, ⟨r, by simp; omega⟩)

/-- Python single-quoting as `str(KeyError(name))` renders the key. -/
def pyQuote (s : String) : String := String.singleton '\'' ++ s ++ String.singleton '\''

/-- The interpolation core of `tpl.format(**fmt_vars)` for the fragment the
templates use: named fields without conversion or format specifications,
with `\x7b\x7b`/`\x7d\x7d` escapes.  A field whose name is empty or all
digits is positional/auto-numbered and raises IndexError (no positional
arguments are passed); an unknown name raises KeyError; a stray or
unterminated brace raises ValueError.  Recursion is on a fuel that
`pyFormat` sets to the input length; every step consumes at least one
character, so the fuel-exhaustion branch is unreachable. -/
def pyFormatGo (vars : List (String × Json)) : Nat → (cs : List Char) → Except FmtErr (List Char)
  | _, [] => .ok []
  | 0, _ => .error (.valueErr "format recursion limit exceeded")
  | fuel + 1, '{' :: '{' :: rest => (fun t => '{' :: t) <$> pyFormatGo vars fuel rest
  | fuel + 1, '{' :: rest =>
      match splitAtBrace rest with
      | none => .error (.valueErr "Single left brace encountered in format string")
      | some (name, ⟨rest', _⟩) =>
          if name.all Char.isDigit then
            .error (.indexErr "Replacement index out of range for positional args tuple")
          else
            match vars.find? (fun p => p.1 = String.mk name) with
            | none => .error (.keyErr (String.mk name))
            | some p => (fun t => (pyStr p.2).data ++ t) <$> pyFormatGo vars fuel rest'
  | fuel + 1, '}' :: '}' :: rest => (fun t => '}' :: t) <$> pyFormatGo vars fuel rest
  | _ + 1, '}' :: _ => .error (.valueErr "Single right brace encountered in format string")
  | fuel + 1, c :: rest => (fun t => c :: t) <$> pyFormatGo vars fuel rest

/-- `tpl.format(**vars)`. -/
def pyFormat (tpl : String) (vars : List (String × Json)) : Except FmtErr String :=
  String.mk <$> pyFormatGo vars tpl.data.length tpl.data

/-- The `AXE_DIAGNOSTICS` payload appended after interpolation. -/
def why_pack (c : Candidate) : Json :=
  .obj [("failureSummary", optStr c.failureSummary),
        ("why_any", .arr (c.why_any.map .str)),
        ("why_all", .arr (c.why_all.map .str)),
        ("why_none", .arr (c.why_none.map .str)),
        ("page_url", .str c.page_url)]

/-- The `techniques_context` JSON block of the prompt. -/
def techniquesContext (tech_doc : List (String × Json)) : String :=
  dumpsIndent2 (.obj [("topic", dictGet tech_doc "topic"), ("do", dictGet tech_doc "do"),
                      ("dont", dictGet tech_doc "dont"), ("edge_cases", dictGet tech_doc "edge_cases")])

/-- The fixed substitution set of the prompt compiler. -/
def fmtVars (sc : String) (tech_doc : List (String × Json)) (c : Candidate) :
    List (String × Json) :=
  [("topic_label", .str (if sc ≠ "" then "SC " ++ sc else (if c.topic ≠ "" then c.topic else "Unmapped"))),
   ("techniques_context", .str (techniquesContext tech_doc)),
   ("selector", .str c.selector),
   ("html_snippet", .str (pyTake 1200 c.html_snippet)),
   ("attributes", .str (dumpsC (.obj (c.attributes.map (fun p => (p.1, Json.str p.2)))))),
   ("role_name", .str c.role_name_guess),
   ("nearby_text", .str (pyTake 800 c.nearby_text)),
   ("acc_snapshot", .str (pyTake 1200 (dumpsC c.acc_snapshot))),
   ("rule_id", .str c.axe_rule_id),
   ("axe_help", optStr c.axe_help),
   ("impact", optStr c.impact)]

/-- The technique doc `build_prompt` actually formats with: an empty doc is
replaced by the synthesized one, with the candidate's axe help and help URL
folded into its `do` list when present. -/
def effectiveDoc (sc : String) (tech_doc0 : List (String × Json)) (c : Candidate) :
    List (String × Json) :=
  if tech_doc0.isEmpty then
    let d0 := synth_context sc c
    let d1 := if (c.axe_help.getD "") ≠ "" then
        appendDo d0 ("Consider axe help: " ++ c.axe_help.getD "") else d0
    if (c.axe_help_url.getD "") ≠ "" then
      appendDo d1 ("Ref: " ++ c.axe_help_url.getD "") else d1
  else tech_doc0

/-- The tail of the RuntimeError message raised for a formatting KeyError. -/
def keyErrTail : String :=
  ". You likely have an unescaped " ++ pyQuote "\x7b" ++ " or " ++ pyQuote "\x7d"
    ++ " in the template. Double all literal braces in JSON examples (use "
    ++ pyQuote "\x7b\x7b" ++ " and " ++ pyQuote "\x7d\x7d" ++ ")."

/-- The RuntimeError message raised for a formatting KeyError, naming the
offending placeholder as `str(KeyError(name))` quotes it. -/
def keyErrMsg (name : String) : String :=
  "Template formatting error near placeholder " ++ pyQuote name ++ keyErrTail

/-- The RuntimeError message raised for a formatting ValueError. -/
def valueErrMsg : String :=
  "Template formatting error (invalid format string). "
    ++ "Ensure all literal braces are escaped as " ++ pyQuote "\x7b\x7b"
    ++ " and " ++ pyQuote "\x7d\x7d" ++ "."

/-- `build_prompt(template_path, sc, tech_doc, c)`, with the template text
passed directly (the source reads it from `template_path`).  A KeyError or
ValueError from formatting becomes the descriptive RuntimeError of the
source; an IndexError propagates; on success the diagnostics block is
appended. -/
def build_prompt (tpl : String) (sc : String) (tech_doc0 : List (String × Json))
    (c : Candidate) : Except BuildErr String :=
  match pyFormat tpl (fmtVars sc (effectiveDoc sc tech_doc0 c) c) with
  | .error (.keyErr name) => .error (.runtimeErr (keyErrMsg name))
  | .error (.valueErr _) => .error (.runtimeErr valueErrMsg)
  | .error (.indexErr msg) => .error (.indexErr msg)
  | .ok prompt => .ok (prompt ++ "\n\nAXE_DIAGNOSTICS:\n" ++ dumpsIndent2 (why_pack c))

/-- The five keys a verdict object must carry. -/
def requiredKeys : List String := ["type", "verdict", "reason", "confidence", "techniques_used"]

/-- Python `k in data` for the shapes `json.loads` can produce: key lookup in
a dict, element equality in a list, substring in a string; anything else is
a TypeError (caught by the adapter's catch-all). -/
def pyIn (k : String) (v : Json) : Except String Bool :=
  match v with
  | .obj kvs => .ok (dictHas kvs k)
  | .arr xs => .ok (xs.any (fun x => match x with | .str s => s = k | _ => false))
  | .str s => .ok (strIn k s)
  | _ => .error "argument of type is not iterable"

/-- The required-key loop of `_run_llm_openai`. -/
def validateKeys : List String → Json → Except String Unit
  | [], _ => .ok ()
  | k :: ks, data =>
      match pyIn k data with
      | .error e => .error e
      | .ok true => validateKeys ks data
      | .ok false => .error ("Missing key: " ++ k)

/-- The span extraction of `_run_llm_openai`: `s = text.find("\x7b")`,
`e = text.rfind("\x7d")`, and `text[s:e+1]` when both exist with `e > s`,
else the text unchanged. -/
def extractJsonSpan (text : String) : String :=
  let cs := text.data
  let s := pyFind cs '{'
  let e := pyRFind cs '}'
  if s ≠ -1 ∧ e ≠ -1 ∧ e > s then String.mk ((cs.drop s.toNat).take (e.toNat + 1 - s.toNat))
  else text

/-- The fallback verdict `_run_llm_openai` returns from its catch-all. -/
def fallbackVerdict (emsg : String) : Json :=
  .obj [("type", .str "informative"), ("verdict", .str "needs-change"),
        ("reason", .str ("LLM fallback (parse/error): " ++ emsg)),
        ("confidence", .num ⟨4, 1⟩), ("techniques_used", .arr [.str "fallback"])]

/-- `_run_llm_openai(prompt)` as a function of the service call's outcome:
an exception anywhere in the try block (client construction, network call)
is the `.error` case; a returned message content is the `.ok` case, which is
stripped, span-extracted, parsed and key-validated, every failure landing in
the same catch-all fallback. -/
def run_llm_openai (svc : Except String String) : Json :=
  match svc with
  | .error e => fallbackVerdict e
  | .ok content =>
      match parseJson (extractJsonSpan (pyStrip content)) with
      | .error e => fallbackVerdict e
      | .ok data =>
          match validateKeys requiredKeys data with
          | .error e => fallbackVerdict e
          | .ok _ => data

/-- The offline stub verdict of `run_llm`. -/
def stubVerdict : Json :=
  .obj [("type", .str "informative"), ("verdict", .str "needs-change"),
        ("reason", .str "Demo verdict (no live LLM or A11Y_USE_LLM=0)."),
        ("confidence", .num ⟨5, 1⟩), ("techniques_used", .arr [.str "demo-only"])]

/-- `_use_live_llm()` over the two environment variables. -/
def use_live_llm (a11yUseLlm : Option String) (openaiKey : Option String) : Bool :=
  a11yUseLlm = some "1" ∧ (openaiKey.getD "") ≠ ""

/-- `run_llm(prompt)`: live adapter when the switch and credential are set,
else the constant stub.  `svc` is the service outcome for the prompt. -/
def run_llm (live : Bool) (svc : Except String String) : Json :=
  if live then run_llm_openai svc else stubVerdict

/-! ## The review pass (`review(out_dir)`)

The pass is modelled on the decoded candidate list (the source reads it from
`candidates.json`, failing fatally when the artifact is missing) and on the
loaded technique docs.  File writes are an explicit trace of
`(path, content)` pairs relative to `out_dir`: one prompt file per reviewed
candidate, and the verdicts artifact at the end. -/

/-- One row of `ai_verdicts.json`. -/
structure VerdictRecord where
  page_url : String
  topic : String
  SC : String
  sc_list : List String
  selector : String
  axe_rule_id : String
  impact : Option String
  ai_verdict : Json
  screenshot : Option String
  axe_help_url : Option String
  prompt_hash : String

/-- The JSON row written for a record. -/
def encodeRecord (r : VerdictRecord) : Json :=
  .obj [("page_url", .str r.page_url), ("topic", .str r.topic), ("SC", .str r.SC),
        ("sc_list", .arr (r.sc_list.map .str)), ("selector", .str r.selector),
        ("axe_rule_id", .str r.axe_rule_id), ("impact", optStr r.impact),
        ("ai_verdict", r.ai_verdict), ("screenshot", optStr r.screenshot),
        ("axe_help_url", optStr r.axe_help_url), ("prompt_hash", .str r.prompt_hash)]

/-- The audit file name `prompts/{i:03d}_{sc or topic or UNMAPPED}_{rule}.txt`. -/
def promptFileName (i : Nat) (sc : String) (c : Candidate) : String :=
  "prompts/" ++ pad3 i ++ "_" ++ (if sc ≠ "" then sc else (if c.topic ≠ "" then c.topic else "UNMAPPED"))
    ++ "_" ++ c.axe_rule_id ++ ".txt"

/-- The outcome of the loop body of `review` for one candidate. -/
inductive StepRes where
  | skip : StepRes
  | err : BuildErr → StepRes
  | out : VerdictRecord → String × String → StepRes

/-- The loop body of `review` for candidate `c` at index `i`: determine the
success criteria, optionally skip non-WCAG candidates, retrieve the
technique doc, build the prompt (which can raise), persist it, obtain the
verdict and assemble the record with the traceability hash. -/
def reviewStep (tpl : String) (techniques : List (List (String × Json))) (live : Bool)
    (svc : String → Except String String) (skipBP : Bool) (i : Nat) (c : Candidate) : StepRes :=
  let p := scs_from_candidate c
  let sc_primary := p.1
  let is_wcag := sc_primary ≠ ""
  if skipBP ∧ ¬ is_wcag then .skip
  else
    let tech_doc := if is_wcag then retrieve_for_sc sc_primary techniques else []
    match build_prompt tpl sc_primary tech_doc c with
    | .error e => .err e
    | .ok prompt =>
        .out
          { page_url := c.page_url, topic := c.topic, SC := sc_primary, sc_list := p.2,
            selector := c.selector, axe_rule_id := c.axe_rule_id, impact := c.impact,
            ai_verdict := run_llm live (svc prompt), screenshot := c.screenshot,
            axe_help_url := c.axe_help_url, prompt_hash := promptHash prompt }
          (promptFileName i sc_primary c, prompt)

/-- The encoded verdicts artifact: `json.dumps(results, indent=2)` — the
call omits `ensure_ascii=False`, so unlike the prompt-side dumps this one
`\u`-escapes non-ASCII characters. -/
def encodeResults (recs : List VerdictRecord) : String :=
  dumpsIndent2Ascii (.arr (recs.map encodeRecord))

/-- The review loop from index `i`, with the records accumulated so far (in
reverse) and the write trace so far.  On completion the verdicts artifact is
written once; an uncaught prompt-builder error aborts before that write. -/
def reviewGo (tpl : String) (techniques : List (List (String × Json))) (live : Bool)
    (svc : String → Except String String) (skipBP : Bool) :
    Nat → List Candidate → List VerdictRecord → List (String × String) →
    (Except BuildErr (List VerdictRecord)) × List (String × String)
  | _, [], recs, trace =>
      (.ok recs.reverse, trace ++ [("ai_verdicts.json", encodeResults recs.reverse)])
  | i, c :: cs, recs, trace =>
      match reviewStep tpl techniques live svc skipBP i c with
      | .skip => reviewGo tpl techniques live svc skipBP (i + 1) cs recs trace
      | .err e => (.error e, trace)
      | .out r w => reviewGo tpl techniques live svc skipBP (i + 1) cs (r :: recs) (trace ++ [w])

/-- `review(out_dir)` on a decoded candidate list: the final records (or the
aborting error) and the file-write trace. -/
def review (tpl : String) (techniques : List (List (String × Json))) (live : Bool)
    (svc : String → Except String String) (skipBP : Bool) (candidates : List Candidate) :
    (Except BuildErr (List VerdictRecord)) × List (String × String) :=
  reviewGo tpl techniques live svc skipBP 0 candidates [] []

/-! ## Specification-side views used by the theorems -/

/-- The deduplication key of a candidate. -/
def candKey (c : Candidate) : String × String := (c.axe_rule_id, c.selector)

def candKeys (cs : List Candidate) : List (String × String) := cs.map candKey

/-- The key of a (rule, node) pair: the rule id and first target selector. -/
def pairKey (p : AxeRule × AxeNode) : String × String := (p.1.id, firstTarget p.2)

/-- The node stream the must-review pass walks: every node of every rule, in
bucket/rule/node order, restricted to nodes with a non-empty selector. -/
def eligiblePairs (rules : List AxeRule) : List (AxeRule × AxeNode) :=
  rules.flatMap (fun r => (r.nodes.filter (fun n => firstTarget n ≠ "")).map (fun n => (r, n)))

/-- First-occurrence filter of (rule, node) pairs under the shared key set:
the clean two-phase view the must-review pass is proved to implement. -/
def dedupFirstGo (seen : List (String × String)) :
    List (AxeRule × AxeNode) → List (AxeRule × AxeNode) × List (String × String)
  | [] => ([], seen)
  | p :: ps =>
      if pairKey p ∈ seen then dedupFirstGo seen ps
      else
        let q := dedupFirstGo (pairKey p :: seen) ps
        (p :: q.1, q.2)

/-- First-occurrence filter on a key stream. -/
def firstOccurrences (seen : List (String × String)) :
    List (String × String) → List (String × String)
  | [] => []
  | k :: ks =>
      if k ∈ seen then firstOccurrences seen ks else k :: firstOccurrences (k :: seen) ks

/-- The candidate the must-review pass builds for an admitted pair. -/
def mkOfPair (env : Env) (url : String) (p : AxeRule × AxeNode) : Candidate :=
  mkMustCandidate env url p.1 (extract_scs p.1.tags) (topicOf (extract_scs p.1.tags)) p.2
    (firstTarget p.2)

/-- A rule with its node list truncated to the first 30 entries. -/
def trunc30 (r : AxeRule) : AxeRule := { r with nodes := r.nodes.take 30 }

/-- Modelled from the spec: the first balanced `\x7b...\x7d` span of a text,
as §4.6's words describe the extraction (`extracts the first balanced span
from the response`); the code's `extractJsonSpan` is compared against it. -/
def balancedSpanFrom (depth : Nat) (acc : List Char) : List Char → Option (List Char)
  | [] => none
  | c :: rest =>
      if c = '{' then balancedSpanFrom (depth + 1) (acc ++ [c]) rest
      else if c = '}' then
        if depth = 1 then some (acc ++ [c]) else balancedSpanFrom (depth - 1) (acc ++ [c]) rest
      else balancedSpanFrom depth (acc ++ [c]) rest

/-- Modelled from the spec: the first balanced brace span of the text. -/
def firstBalancedSpan (text : String) : Option String :=
  match text.data.dropWhile (fun c => c ≠ '{') with
  | [] => none
  | c :: rest => (balancedSpanFrom 1 [c] rest).map String.mk

/-- The invariant a candidate-emitting stage maintains over the shared key
set: emitted keys are pairwise distinct, fresh with respect to the incoming
set, and recorded in the outgoing set, which also keeps everything it held. -/
def StageOK (f : List (String × String) → List Candidate × List (String × String)) : Prop :=
  ∀ seen, (candKeys (f seen).1).Nodup
    ∧ (∀ c ∈ (f seen).1, candKey c ∉ seen ∧ candKey c ∈ (f seen).2)
    ∧ (∀ k ∈ seen, k ∈ (f seen).2)
    ∧ (∀ k ∈ (f seen).2, k ∈ seen ∨ k ∈ candKeys (f seen).1)

/-! ## Concrete fixtures for witnesses and counterexamples -/

/-- A concrete context provider: one anchor `a#x` whose rendered text is a
mixed-case `Click Here` with surrounding whitespace. -/
def envW : Env :=
  { query := fun s => s = "a#x"
    rawSnapshot := fun _ => .obj []
    nearbyText := fun _ => ""
    roleName := fun _ => ""
    attrs := fun _ => []
    innerTextRaw := fun s => if s = "a#x" then "  Click Here " else ""
    isFunctional := fun _ => false
    screenshot := fun _ _ => none }

/-- A concrete passing `link-name` rule with that node. -/
def ruleW : AxeRule :=
  { id := "link-name"
    tags := ["wcag244", "cat.semantics"]
    help := some "Links must have discernible text"
    helpUrl := none
    impact := none
    nodes := [{ target := ["a#x"], html := some "<a>Click Here</a>", failureSummary := none,
                anyItems := [], allItems := [], noneItems := [] }] }

/-- A concrete payload with only that passing rule. -/
def payloadW : AxePayload := { violations := [], incomplete := [], passes := [ruleW] }

/-- A minimal concrete candidate for exercising the prompt compiler. -/
def candW : Candidate :=
  { page_url := "https://ex.org/p"
    bucket := "must_review"
    topic := "SC-1.1.1"
    sc_list := ["1.1.1"]
    axe_rule_id := "image-alt"
    axe_help := none
    axe_help_url := none
    impact := none
    selector := "img#logo"
    html_snippet := ""
    attributes := []
    role_name_guess := ""
    nearby_text := ""
    acc_snapshot := .obj []
    screenshot := none
    failureSummary := none
    why_any := []
    why_all := []
    why_none := [] }

/-- A service response carrying one complete five-key verdict object followed
by a second brace pair: the first balanced span parses cleanly, but the code
slices from the first opening brace to the last closing brace. -/
def c8text : String :=
  "\x7b\"type\": \"a\", \"verdict\": \"b\", \"reason\": \"c\", \"confidence\": 1, \"techniques_used\": []\x7d \x7b\x7d"

/-- The first balanced brace span of `c8text`. -/
def c8span : String :=
  "\x7b\"type\": \"a\", \"verdict\": \"b\", \"reason\": \"c\", \"confidence\": 1, \"techniques_used\": []\x7d"

/-- The verdict object the first balanced span parses to. -/
def c8good : Json :=
  .obj [("type", .str "a"), ("verdict", .str "b"), ("reason", .str "c"),
        ("confidence", .num ⟨1, 0⟩), ("techniques_used", .arr [])]

/-! ## Helper lemmas -/

theorem wcagMatchAt_shape (l : List Char) (sc : String) (h : wcagMatchAt l = some sc) :
    ∃ d1 d2 d3 rest, d1.isDigit ∧ d2.isDigit ∧ d3.isDigit ∧
      l = 'w' :: 'c' :: 'a' :: 'g' :: d1 :: d2 :: d3 :: rest ∧ (rest = [] ∨ rest = ['\n']) ∧
      sc = String.mk [d1, '.', d2, '.', d3] := by
  rw [wcagMatchAt.eq_def] at h
  split at h
  · rename_i d1 d2 d3 rest
    split at h
    · rename_i hc
      exact ⟨d1, d2, d3, rest, hc.1, hc.2.1, hc.2.2.1, rfl, hc.2.2.2, (Option.some.inj h).symm⟩
    · exact absurd h (by simp)
  · exact absurd h (by simp)

theorem extract_scs_eq (tags : List String) : extract_scs tags = tags.filterMap wcagTagMatch := by
  induction tags with
  | nil => rfl
  | cons t ts ih =>
      simp only [extract_scs, List.foldr_cons, List.filterMap_cons]
      cases h : wcagTagMatch t <;> simp [h, ← ih, extract_scs]

theorem dotted_no_tag_match (d1 d2 d3 : Char) :
    wcagTagMatch (String.mk [d1, '.', d2, '.', d3]) = none := by
  have hlow : (pyLower (String.mk [d1, '.', d2, '.', d3])).data
      = [d1.toLower, '.', d2.toLower, '.', d3.toLower] := by
    simp [pyLower]
  rw [wcagTagMatch, hlow, wcagMatchAt.eq_def]
  split
  · rename_i heq
    simp at heq
  · rfl

theorem extract_scs_never_rematch (tags : List String) (s : String) (hs : s ∈ extract_scs tags) :
    wcagTagMatch s = none := by
  rw [extract_scs_eq] at hs
  rcases List.mem_filterMap.mp hs with ⟨t, _, ht⟩
  rcases wcagMatchAt_shape _ _ ht with ⟨d1, d2, d3, rest, _, _, _, _, _, hsc⟩
  rw [hsc]
  exact dotted_no_tag_match d1 d2 d3

theorem topicOf_ne_empty (scs : List String) (h : scs ≠ []) :
    topicOf scs = "SC-" ++ scs.headD "" := by
  simp [topicOf, h]

theorem topicOf_empty : topicOf [] = "BEST_PRACTICE" := rfl

theorem mustNodes_dedup (env : Env) (url : String) (r : AxeRule) (ns : List AxeNode)
    (seen : List (String × String)) :
    mustNodes env url r (extract_scs r.tags) (topicOf (extract_scs r.tags)) ns seen
      = ((dedupFirstGo seen ((ns.filter (fun n => firstTarget n ≠ "")).map (fun n => (r, n)))).1.map
           (mkOfPair env url),
         (dedupFirstGo seen ((ns.filter (fun n => firstTarget n ≠ "")).map (fun n => (r, n)))).2) := by
  induction ns generalizing seen with
  | nil => rfl
  | cons n ns ih =>
      by_cases hsel : firstTarget n = ""
      · simp [mustNodes, hsel, List.filter_cons, ih]
      · by_cases hseen : (r.id, firstTarget n) ∈ seen
        · simp [mustNodes, hsel, hseen, List.filter_cons, dedupFirstGo, pairKey, ih]
        · simp [mustNodes, hsel, hseen, List.filter_cons, dedupFirstGo, pairKey, ih, mkOfPair]

theorem dedupFirstGo_append (seen : List (String × String)) (xs ys : List (AxeRule × AxeNode)) :
    dedupFirstGo seen (xs ++ ys)
      = ((dedupFirstGo seen xs).1 ++ (dedupFirstGo (dedupFirstGo seen xs).2 ys).1,
         (dedupFirstGo (dedupFirstGo seen xs).2 ys).2) := by
  induction xs generalizing seen with
  | nil => simp [dedupFirstGo]
  | cons p ps ih => by_cases h : pairKey p ∈ seen <;> simp [dedupFirstGo, h, ih]

theorem mustRules_dedup (env : Env) (url : String) (rules : List AxeRule)
    (seen : List (String × String)) :
    mustRules env url rules seen
      = ((dedupFirstGo seen (eligiblePairs rules)).1.map (mkOfPair env url),
         (dedupFirstGo seen (eligiblePairs rules)).2) := by
  induction rules generalizing seen with
  | nil => rfl
  | cons r rs ih =>
      have hsplit : eligiblePairs (r :: rs)
          = (r.nodes.filter (fun n => firstTarget n ≠ "")).map (fun n => (r, n))
            ++ eligiblePairs rs := by
        simp [eligiblePairs]
      rw [mustRules, mustNodes_dedup, ih, hsplit, dedupFirstGo_append]
      simp

theorem candKey_mkOfPair (env : Env) (url : String) (p : AxeRule × AxeNode) :
    candKey (mkOfPair env url p) = pairKey p := rfl

theorem candKeys_map_mkOfPair (env : Env) (url : String) (l : List (AxeRule × AxeNode)) :
    candKeys (l.map (mkOfPair env url)) = l.map pairKey := by
  induction l with
  | nil => rfl
  | cons p ps ih => simp only [List.map_cons, candKeys] at *; simp [candKey_mkOfPair, ih]

theorem dedup_keys (ps : List (AxeRule × AxeNode)) : ∀ seen,
    (dedupFirstGo seen ps).1.map pairKey = firstOccurrences seen (ps.map pairKey) := by
  induction ps with
  | nil => intro seen; rfl
  | cons p ps ih =>
      intro seen
      by_cases h : pairKey p ∈ seen <;> simp [dedupFirstGo, firstOccurrences, h, ih]

theorem firstOcc_spec (ks : List (String × String)) : ∀ seen,
    (∀ k ∈ firstOccurrences seen ks, k ∉ seen) ∧ (firstOccurrences seen ks).Nodup := by
  induction ks with
  | nil => intro seen; simp [firstOccurrences]
  | cons k ks ih =>
      intro seen
      by_cases h : k ∈ seen
      · simpa [firstOccurrences, h] using ih seen
      · constructor
        · intro k' hk'
          rw [firstOccurrences, if_neg h] at hk'
          rcases List.mem_cons.mp hk' with rfl | hk'
          · exact h
          · have := (ih (k :: seen)).1 k' hk'
            intro hcon
            exact this (by simp [hcon])
        · rw [firstOccurrences, if_neg h, List.nodup_cons]
          exact ⟨fun hc => (ih (k :: seen)).1 k hc (by simp), (ih (k :: seen)).2⟩

theorem dedup_seen_mem (ps : List (AxeRule × AxeNode)) : ∀ seen k,
    k ∈ (dedupFirstGo seen ps).2 ↔ (k ∈ seen ∨ k ∈ (dedupFirstGo seen ps).1.map pairKey) := by
  induction ps with
  | nil => simp [dedupFirstGo]
  | cons p ps ih =>
      intro seen k
      by_cases h : pairKey p ∈ seen
      · simp only [dedupFirstGo, if_pos h]
        exact ih seen k
      · simp only [dedupFirstGo, if_neg h, List.map_cons, List.mem_cons]
        rw [ih (pairKey p :: seen) k]
        simp only [List.mem_cons]
        tauto

theorem stageOK_comp {f g : List (String × String) → List Candidate × List (String × String)}
    (hf : StageOK f) (hg : StageOK g) :
    StageOK (fun seen => ((f seen).1 ++ (g (f seen).2).1, (g (f seen).2).2)) := by
  intro seen
  obtain ⟨hf1, hf2, hf3, hf4⟩ := hf seen
  obtain ⟨hg1, hg2, hg3, hg4⟩ := hg (f seen).2
  refine ⟨?_, ?_, ?_, ?_⟩
  · rw [candKeys, List.map_append, List.nodup_append]
    refine ⟨hf1, hg1, ?_⟩
    intro k hka hkb
    rcases List.mem_map.mp hka with ⟨c, hc, rfl⟩
    rcases List.mem_map.mp hkb with ⟨c', hc', hkey⟩
    exact (hg2 c' hc').1 (hkey ▸ (hf2 c hc).2)
  · intro c hc
    rcases List.mem_append.mp hc with hc | hc
    · exact ⟨(hf2 c hc).1, hg3 _ (hf2 c hc).2⟩
    · exact ⟨fun hk => (hg2 c hc).1 (hf3 _ hk), (hg2 c hc).2⟩
  · intro k hk
    exact hg3 _ (hf3 _ hk)
  · intro k hk
    rcases hg4 k hk with hk | hk
    · rcases hf4 k hk with hk | hk
      · exact Or.inl hk
      · refine Or.inr ?_
        simp only [candKeys, List.map_append, List.mem_append]
        exact Or.inl (by simpa [candKeys] using hk)
    · refine Or.inr ?_
      simp only [candKeys, List.map_append, List.mem_append]
      exact Or.inr (by simpa [candKeys] using hk)

theorem stageOK_mustRules (env : Env) (url : String) (rules : List AxeRule) :
    StageOK (mustRules env url rules) := by
  intro seen
  rw [mustRules_dedup]
  have hkeys : candKeys ((dedupFirstGo seen (eligiblePairs rules)).1.map (mkOfPair env url))
      = firstOccurrences seen ((eligiblePairs rules).map pairKey) := by
    rw [candKeys_map_mkOfPair, dedup_keys]
  refine ⟨?_, ?_, ?_, ?_⟩
  · rw [hkeys]; exact (firstOcc_spec _ seen).2
  · intro c hc
    rcases List.mem_map.mp hc with ⟨p, hp, rfl⟩
    have hk : candKey (mkOfPair env url p) ∈ candKeys ((dedupFirstGo seen (eligiblePairs rules)).1.map (mkOfPair env url)) := by
      exact List.mem_map.mpr ⟨mkOfPair env url p, List.mem_map.mpr ⟨p, hp, rfl⟩, rfl⟩
    constructor
    · rw [hkeys] at hk
      exact (firstOcc_spec _ seen).1 _ hk
    · rw [candKeys_map_mkOfPair] at hk
      exact (dedup_seen_mem _ seen _).mpr (Or.inr hk)
  · intro k hk
    exact (dedup_seen_mem _ seen k).mpr (Or.inl hk)
  · intro k hk
    rcases (dedup_seen_mem _ seen k).mp hk with hk | hk
    · exact Or.inl hk
    · exact Or.inr (by rw [candKeys_map_mkOfPair]; exact hk)

theorem stageOK_promoIA (env : Env) (url : String) (r : AxeRule) (scs : List String)
    (topic : String) : ∀ ns, StageOK (promoImageAlt env url r scs topic ns) := by
  intro ns
  induction ns with
  | nil => intro seen; simp [promoImageAlt, StageOK, candKeys]
  | cons n ns ih =>
      intro seen
      by_cases hsel : firstTarget n = ""
      · simpa [promoImageAlt, hsel] using ih seen
      · by_cases hq : imageAltQualifies env (firstTarget n)
        · by_cases hseen : (r.id, firstTarget n) ∈ seen
          · simpa [promoImageAlt, hsel, hq, hseen] using ih seen
          · refine ⟨?_, ?_, ?_, ?_⟩ <;>
              simp only [promoImageAlt, hsel, hq, hseen, if_neg, if_pos, ite_false, ite_true]
            · simp [candKeys]
            · intro c hc
              simp only [List.mem_singleton] at hc
              subst hc
              exact ⟨hseen, by simp [candKey, mkPromoCandidate, mkMustCandidate]⟩
            · intro k hk; simp [hk]
            · intro k hk
              rcases List.mem_cons.mp hk with rfl | hk
              · exact Or.inr (by simp [candKeys, candKey, mkPromoCandidate, mkMustCandidate])
              · exact Or.inl hk
        · simpa [promoImageAlt, hsel, hq] using ih seen

theorem stageOK_promoLN (env : Env) (url : String) (r : AxeRule) (scs : List String)
    (topic : String) : ∀ ns, StageOK (promoLinkName env url r scs topic ns) := by
  intro ns
  induction ns with
  | nil => intro seen; simp [promoLinkName, StageOK, candKeys]
  | cons n ns ih =>
      intro seen
      by_cases hsel : firstTarget n = ""
      · simpa [promoLinkName, hsel] using ih seen
      · by_cases hq : linkTextOf env (firstTarget n) ∈ genericLinkTexts
        · by_cases hseen : (r.id, firstTarget n) ∈ seen
          · simpa [promoLinkName, hsel, hq, hseen] using ih seen
          · refine ⟨?_, ?_, ?_, ?_⟩ <;>
              simp only [promoLinkName, hsel, hq, hseen, if_neg, if_pos, ite_false, ite_true]
            · simp [candKeys]
            · intro c hc
              simp only [List.mem_singleton] at hc
              subst hc
              exact ⟨hseen, by simp [candKey, mkPromoCandidate, mkMustCandidate]⟩
            · intro k hk; simp [hk]
            · intro k hk
              rcases List.mem_cons.mp hk with rfl | hk
              · exact Or.inr (by simp [candKeys, candKey, mkPromoCandidate, mkMustCandidate])
              · exact Or.inl hk
        · simpa [promoLinkName, hsel, hq] using ih seen

theorem stageOK_promoRules (env : Env) (url : String) : ∀ rs : List AxeRule,
    StageOK (promoRules env url rs) := by
  intro rs
  induction rs with
  | nil => intro seen; simp [promoRules, StageOK, candKeys]
  | cons r rs ih =>
      by_cases hmem : r.id ∉ (["image-alt", "link-name"] : List String)
      · intro seen
        simpa [promoRules, hmem] using ih seen
      · by_cases hia : r.id = "image-alt"
        · intro seen
          have := stageOK_comp (stageOK_promoIA env url r (extract_scs r.tags)
            (topicOf (extract_scs r.tags)) (r.nodes.take 30)) ih seen
          simpa [promoRules, hmem, hia] using this
        · have hln : r.id = "link-name" := by
            rcases (by simpa using not_not.mp hmem : r.id = "image-alt" ∨ r.id = "link-name") with h | h
            · exact absurd h hia
            · exact h
          intro seen
          have := stageOK_comp (stageOK_promoLN env url r (extract_scs r.tags)
            (topicOf (extract_scs r.tags)) (r.nodes.take 30)) ih seen
          simpa [promoRules, hmem, hln, hia] using this

theorem promoIA_fields (env : Env) (url : String) (r : AxeRule) (scs : List String)
    (topic : String) : ∀ ns seen c, c ∈ (promoImageAlt env url r scs topic ns seen).1 →
    c.axe_rule_id = r.id ∧ c.bucket = "semantic_review" ∧ c.topic = topic ∧ c.sc_list = scs := by
  intro ns
  induction ns with
  | nil => intro seen c hc; simp [promoImageAlt] at hc
  | cons n ns ih =>
      intro seen c hc
      by_cases hsel : firstTarget n = ""
      · exact ih seen c (by simpa [promoImageAlt, hsel] using hc)
      · by_cases hq : imageAltQualifies env (firstTarget n)
        · by_cases hseen : (r.id, firstTarget n) ∈ seen
          · exact ih seen c (by simpa [promoImageAlt, hsel, hq, hseen] using hc)
          · simp only [promoImageAlt, hsel, hq, hseen, if_neg, if_pos, ite_false, ite_true,
              List.mem_singleton] at hc
            subst hc
            simp [mkPromoCandidate, mkMustCandidate]
        · exact ih seen c (by simpa [promoImageAlt, hsel, hq] using hc)

theorem promoLN_fields (env : Env) (url : String) (r : AxeRule) (scs : List String)
    (topic : String) : ∀ ns seen c, c ∈ (promoLinkName env url r scs topic ns seen).1 →
    c.axe_rule_id = r.id ∧ c.bucket = "semantic_review" ∧ c.topic = topic ∧ c.sc_list = scs
      ∧ linkTextOf env c.selector ∈ genericLinkTexts := by
  intro ns
  induction ns with
  | nil => intro seen c hc; simp [promoLinkName] at hc
  | cons n ns ih =>
      intro seen c hc
      by_cases hsel : firstTarget n = ""
      · exact ih seen c (by simpa [promoLinkName, hsel] using hc)
      · by_cases hq : linkTextOf env (firstTarget n) ∈ genericLinkTexts
        · by_cases hseen : (r.id, firstTarget n) ∈ seen
          · exact ih seen c (by simpa [promoLinkName, hsel, hq, hseen] using hc)
          · simp only [promoLinkName, hsel, hq, hseen, if_neg, if_pos, ite_false, ite_true,
              List.mem_singleton] at hc
            subst hc
            refine ⟨rfl, rfl, rfl, rfl, ?_⟩
            simpa [mkPromoCandidate, mkMustCandidate] using hq
        · exact ih seen c (by simpa [promoLinkName, hsel, hq] using hc)

theorem mustRules_fields (env : Env) (url : String) (rules : List AxeRule)
    (seen : List (String × String)) (c : Candidate)
    (hc : c ∈ (mustRules env url rules seen).1) :
    c.bucket = "must_review" ∧ c.topic = topicOf c.sc_list := by
  rw [mustRules_dedup] at hc
  rcases List.mem_map.mp hc with ⟨p, _, rfl⟩
  simp [mkOfPair, mkMustCandidate]

theorem promoRules_fields (env : Env) (url : String) : ∀ (rs : List AxeRule) seen c,
    c ∈ (promoRules env url rs seen).1 →
    c.bucket = "semantic_review" ∧ c.axe_rule_id ∈ rs.map AxeRule.id
      ∧ c.axe_rule_id ∈ (["image-alt", "link-name"] : List String)
      ∧ (c.axe_rule_id = "link-name" → linkTextOf env c.selector ∈ genericLinkTexts)
      ∧ c.topic = topicOf c.sc_list := by
  intro rs
  induction rs with
  | nil => intro seen c hc; simp [promoRules] at hc
  | cons r rs ih =>
      intro seen c hc
      by_cases hmem : r.id ∉ (["image-alt", "link-name"] : List String)
      · have := ih seen c (by simpa [promoRules, hmem] using hc)
        exact ⟨this.1, by simp [this.2.1], this.2.2⟩
      · by_cases hia : r.id = "image-alt"
        · rw [show (promoRules env url (r :: rs) seen).1
              = (promoImageAlt env url r (extract_scs r.tags) (topicOf (extract_scs r.tags))
                  (r.nodes.take 30) seen).1
                ++ (promoRules env url rs (promoImageAlt env url r (extract_scs r.tags)
                    (topicOf (extract_scs r.tags)) (r.nodes.take 30) seen).2).1 from by
            simp [promoRules, hmem, hia]] at hc
          rcases List.mem_append.mp hc with hc | hc
          · obtain ⟨hid, hb, ht, hs⟩ := promoIA_fields env url r _ _ _ _ c hc
            rw [hia] at hid
            refine ⟨hb, by simp [hid, hia], by simp [hid], ?_, by rw [ht, hs]⟩
            intro hln
            rw [hid] at hln
            exact absurd hln (by decide)
          · have := ih _ c hc
            exact ⟨this.1, by simp [this.2.1], this.2.2⟩
        · have hln : r.id = "link-name" := by
            rcases (by simpa using not_not.mp hmem : r.id = "image-alt" ∨ r.id = "link-name") with h | h
            · exact absurd h hia
            · exact h
          rw [show (promoRules env url (r :: rs) seen).1
              = (promoLinkName env url r (extract_scs r.tags) (topicOf (extract_scs r.tags))
                  (r.nodes.take 30) seen).1
                ++ (promoRules env url rs (promoLinkName env url r (extract_scs r.tags)
                    (topicOf (extract_scs r.tags)) (r.nodes.take 30) seen).2).1 from by
            simp [promoRules, hmem, hia, hln]] at hc
          rcases List.mem_append.mp hc with hc | hc
          · obtain ⟨hid, hb, ht, hs, htxt⟩ := promoLN_fields env url r _ _ _ _ c hc
            rw [hln] at hid
            exact ⟨hb, by simp [hid, hln], by simp [hid], fun _ => htxt, by rw [ht, hs]⟩
          · have := ih _ c hc
            exact ⟨this.1, by simp [this.2.1], this.2.2⟩

theorem promoIA_len (env : Env) (url : String) (r : AxeRule) (scs : List String)
    (topic : String) : ∀ ns seen, (promoImageAlt env url r scs topic ns seen).1.length ≤ 1 := by
  intro ns
  induction ns with
  | nil => intro seen; simp [promoImageAlt]
  | cons n ns ih =>
      intro seen
      by_cases hsel : firstTarget n = ""
      · simpa [promoImageAlt, hsel] using ih seen
      · by_cases hq : imageAltQualifies env (firstTarget n)
        · by_cases hseen : (r.id, firstTarget n) ∈ seen
          · simpa [promoImageAlt, hsel, hq, hseen] using ih seen
          · simp [promoImageAlt, hsel, hq, hseen]
        · simpa [promoImageAlt, hsel, hq] using ih seen

theorem promoLN_len (env : Env) (url : String) (r : AxeRule) (scs : List String)
    (topic : String) : ∀ ns seen, (promoLinkName env url r scs topic ns seen).1.length ≤ 1 := by
  intro ns
  induction ns with
  | nil => intro seen; simp [promoLinkName]
  | cons n ns ih =>
      intro seen
      by_cases hsel : firstTarget n = ""
      · simpa [promoLinkName, hsel] using ih seen
      · by_cases hq : linkTextOf env (firstTarget n) ∈ genericLinkTexts
        · by_cases hseen : (r.id, firstTarget n) ∈ seen
          · simpa [promoLinkName, hsel, hq, hseen] using ih seen
          · simp [promoLinkName, hsel, hq, hseen]
        · simpa [promoLinkName, hsel, hq] using ih seen

theorem promoRules_count (env : Env) (url : String) : ∀ (rs : List AxeRule) seen,
    (rs.map AxeRule.id).Nodup → ∀ rid : String,
    ((promoRules env url rs seen).1.filter (fun c => c.axe_rule_id = rid)).length ≤ 1 := by
  intro rs
  induction rs with
  | nil => intro seen _ rid; simp [promoRules]
  | cons r rs ih =>
      intro seen hnd rid
      rw [List.map_cons, List.nodup_cons] at hnd
      by_cases hmem : r.id ∉ (["image-alt", "link-name"] : List String)
      · simpa [promoRules, hmem] using ih seen hnd.2 rid
      · have hbranch : ∀ (one : List Candidate) seen',
            (∀ c ∈ one, c.axe_rule_id = r.id) → one.length ≤ 1 →
            ((one ++ (promoRules env url rs seen').1).filter
              (fun c => c.axe_rule_id = rid)).length ≤ 1 := by
          intro one seen' hone hlen
          rw [List.filter_append, List.length_append]
          by_cases hr : rid = r.id
          · have hrest : (promoRules env url rs seen').1.filter (fun c => c.axe_rule_id = rid) = [] := by
              rw [List.filter_eq_nil_iff]
              intro c hc
              have := (promoRules_fields env url rs seen' c hc).2.1
              simp only [decide_eq_true_eq]
              intro hcr
              rw [hcr, hr] at this
              exact hnd.1 this
            rw [hrest]
            simpa using le_trans (List.length_filter_le _ one) hlen
          · have hone' : one.filter (fun c => c.axe_rule_id = rid) = [] := by
              rw [List.filter_eq_nil_iff]
              intro c hc
              simp only [decide_eq_true_eq]
              intro hcr
              exact hr (by rw [← hcr, hone c hc])
            rw [hone']
            simpa using ih seen' hnd.2 rid
        by_cases hia : r.id = "image-alt"
        · have hcalc := hbranch (promoImageAlt env url r (extract_scs r.tags)
              (topicOf (extract_scs r.tags)) (r.nodes.take 30) seen).1
            (promoImageAlt env url r (extract_scs r.tags)
              (topicOf (extract_scs r.tags)) (r.nodes.take 30) seen).2
            (fun c hc => (promoIA_fields env url r _ _ _ _ c hc).1)
            (promoIA_len env url r _ _ _ _)
          simpa [promoRules, hmem, hia] using hcalc
        · have hln : r.id = "link-name" := by
            rcases (by simpa using not_not.mp hmem : r.id = "image-alt" ∨ r.id = "link-name") with h | h
            · exact absurd h hia
            · exact h
          have hcalc := hbranch (promoLinkName env url r (extract_scs r.tags)
              (topicOf (extract_scs r.tags)) (r.nodes.take 30) seen).1
            (promoLinkName env url r (extract_scs r.tags)
              (topicOf (extract_scs r.tags)) (r.nodes.take 30) seen).2
            (fun c hc => (promoLN_fields env url r _ _ _ _ c hc).1)
            (promoLN_len env url r _ _ _ _)
          simpa [promoRules, hmem, hia, hln] using hcalc

theorem promoIA_ruleFields (env : Env) (url : String) (r r' : AxeRule) (h1 : r'.id = r.id)
    (h2 : r'.help = r.help) (h3 : r'.helpUrl = r.helpUrl) (h4 : r'.impact = r.impact)
    (scs : List String) (topic : String) : ∀ ns seen,
    promoImageAlt env url r' scs topic ns seen = promoImageAlt env url r scs topic ns seen := by
  intro ns
  induction ns with
  | nil => intro seen; rfl
  | cons n ns ih =>
      intro seen
      simp only [promoImageAlt, h1, h2, h3, h4, ih, mkPromoCandidate, mkMustCandidate]

theorem promoLN_ruleFields (env : Env) (url : String) (r r' : AxeRule) (h1 : r'.id = r.id)
    (h2 : r'.help = r.help) (h3 : r'.helpUrl = r.helpUrl) (h4 : r'.impact = r.impact)
    (scs : List String) (topic : String) : ∀ ns seen,
    promoLinkName env url r' scs topic ns seen = promoLinkName env url r scs topic ns seen := by
  intro ns
  induction ns with
  | nil => intro seen; rfl
  | cons n ns ih =>
      intro seen
      simp only [promoLinkName, h1, h2, h3, h4, ih, mkPromoCandidate, mkMustCandidate]

theorem promoRules_trunc (env : Env) (url : String) : ∀ (rs : List AxeRule) seen,
    promoRules env url rs seen = promoRules env url (rs.map trunc30) seen := by
  intro rs
  induction rs with
  | nil => intro seen; rfl
  | cons r rs ih =>
      intro seen
      have hnodes : (trunc30 r).nodes.take 30 = r.nodes.take 30 := by
        simp [trunc30, List.take_take]
      simp only [List.map_cons, promoRules, show (trunc30 r).id = r.id from rfl,
        show (trunc30 r).tags = r.tags from rfl, hnodes, ← ih,
        promoIA_ruleFields env url r (trunc30 r) rfl rfl rfl rfl,
        promoLN_ruleFields env url r (trunc30 r) rfl rfl rfl rfl]

/-- The `image-alt` promotion loop promotes exactly the first qualifying
node of its stream — emitting that node's candidate and marking its key —
and emits nothing when no node qualifies. -/
theorem promoIA_emits (env : Env) (url : String) (r : AxeRule) (scs : List String)
    (topic : String) : ∀ (ns : List AxeNode) (seen : List (String × String)),
    promoImageAlt env url r scs topic ns seen
      = match firstQualIA env r.id seen ns with
        | some p => ([mkPromoCandidate env url r scs topic p.1 p.2], (r.id, p.2) :: seen)
        | none => ([], seen) := by
  intro ns
  induction ns with
  | nil => intro seen; rfl
  | cons n ns ih =>
      intro seen
      by_cases hsel : firstTarget n = ""
      · simp [promoImageAlt, firstQualIA, hsel, ih]
      · by_cases hq : imageAltQualifies env (firstTarget n) = true
        · by_cases hseen : (r.id, firstTarget n) ∈ seen
          · simp [promoImageAlt, firstQualIA, hsel, hq, hseen, ih]
          · simp [promoImageAlt, firstQualIA, hsel, hq, hseen]
        · simp [promoImageAlt, firstQualIA, hsel, hq, ih]

/-- The `link-name` promotion loop promotes exactly the first node with a
non-empty selector, generic rendered text and a fresh key, and emits nothing
when no node qualifies. -/
theorem promoLN_emits (env : Env) (url : String) (r : AxeRule) (scs : List String)
    (topic : String) : ∀ (ns : List AxeNode) (seen : List (String × String)),
    promoLinkName env url r scs topic ns seen
      = match firstQualLN env r.id seen ns with
        | some p => ([mkPromoCandidate env url r scs topic p.1 p.2], (r.id, p.2) :: seen)
        | none => ([], seen) := by
  intro ns
  induction ns with
  | nil => intro seen; rfl
  | cons n ns ih =>
      intro seen
      by_cases hsel : firstTarget n = ""
      · simp [promoLinkName, firstQualLN, hsel, ih]
      · by_cases hq : linkTextOf env (firstTarget n) ∈ genericLinkTexts
        · by_cases hseen : (r.id, firstTarget n) ∈ seen
          · simp [promoLinkName, firstQualLN, hsel, hq, hseen, ih]
          · simp [promoLinkName, firstQualLN, hsel, hq, hseen]
        · simp [promoLinkName, firstQualLN, hsel, hq, ih]

theorem hasSub_middle (pat : List Char) : ∀ a b : List Char, hasSub pat (a ++ (pat ++ b)) = true := by
  intro a
  induction a with
  | nil =>
      intro b
      cases pat with
      | nil => cases b <;> simp [hasSub, List.isPrefixOf]
      | cons p ps =>
          simp only [List.nil_append, List.cons_append, hasSub]
          have hpre : (p :: ps).isPrefixOf (p :: (ps ++ b)) = true := by
            rw [List.isPrefixOf_iff_prefix]
            exact List.prefix_append (p :: ps) b
          simp [hpre]
  | cons x a' ih =>
      intro b
      simp [hasSub, ih b]

theorem hexChar_mem (n : Nat) : hexChar n ∈ hexDigitChars := by
  unfold hexChar
  by_cases h : n < 16
  · interval_cases n <;> decide
  · rw [List.getD_eq_default]
    · decide
    · simpa [hexDigitChars] using Nat.le_of_not_lt h

theorem sha256HexChars_length (ms : List Nat) : (sha256HexChars ms).length = 64 := by
  simp [sha256HexChars, wordHex]

theorem promptHash_length (s : String) : (promptHash s).length = 16 := by
  have h := sha256HexChars_length (strBytes s)
  simp [promptHash, String.length, List.length_take, h]

theorem promptHash_hex (s : String) : ∀ ch ∈ (promptHash s).data, ch ∈ hexDigitChars := by
  intro ch hch
  have h1 : ch ∈ sha256HexChars (strBytes s) := by
    have := List.take_subset 16 (sha256HexChars (strBytes s))
    exact this (by simpa [promptHash] using hch)
  simp only [sha256HexChars, List.mem_append, wordHex, List.mem_map, List.mem_range] at h1
  rcases h1 with ((((((h | h) | h) | h) | h) | h) | h) | h <;>
    · rcases h with ⟨i, _, rfl⟩
      exact hexChar_mem _

theorem pyFindIdx_spec (ch : Char) : ∀ (cs : List Char) i, pyFindIdx ch cs = some i →
    i < cs.length ∧ cs[i]? = some ch := by
  intro cs
  induction cs with
  | nil => intro i h; simp [pyFindIdx] at h
  | cons c rest ih =>
      intro i h
      rw [pyFindIdx] at h
      by_cases hc : c = ch
      · rw [if_pos hc] at h
        obtain rfl := (Option.some.inj h)
        exact ⟨Nat.succ_pos _, by simp [hc]⟩
      · rw [if_neg hc] at h
        rcases Option.map_eq_some'.mp h with ⟨j, hj, rfl⟩
        obtain ⟨hlt, hget⟩ := ih j hj
        exact ⟨Nat.succ_lt_succ hlt, by simpa using hget⟩

theorem validateKeys_missing : ∀ (ks : List String) (kvs : List (String × Json)),
    (∃ k ∈ ks, dictHas kvs k = false) → ∃ e, validateKeys ks (.obj kvs) = .error e := by
  intro ks
  induction ks with
  | nil =>
      rintro kvs ⟨k, hk, _⟩
      simp at hk
  | cons k0 ks ih =>
      rintro kvs ⟨k, hk, hmiss⟩
      by_cases h0 : dictHas kvs k0
      · rcases List.mem_cons.mp hk with rfl | hk'
        · rw [h0] at hmiss; cases hmiss
        · have := ih kvs ⟨k, hk', hmiss⟩
          simpa [validateKeys, pyIn, h0] using this
      · refine ⟨"Missing key: " ++ k0, ?_⟩
        simp [validateKeys, pyIn, Bool.eq_false_iff.mpr h0]

theorem extractJsonSpan_spec (s : String)
    (hs : pyFind s.data '{' ≠ -1) (he : pyRFind s.data '}' ≠ -1)
    (hlt : pyFind s.data '{' < pyRFind s.data '}') :
    (extractJsonSpan s).data.head? = some '{'
    ∧ (extractJsonSpan s).data.getLast? = some '}'
    ∧ ∃ pre post, s.data = pre ++ (extractJsonSpan s).data ++ post := by
  cases hf : pyFindIdx '{' s.data with
  | none => exact absurd (by rw [pyFind, hf]) hs
  | some i =>
  cases hr : pyFindIdx '}' s.data.reverse with
  | none => exact absurd (by rw [pyRFind, hr]) he
  | some j =>
  obtain ⟨hilt, higet⟩ := pyFindIdx_spec '{' s.data i hf
  obtain ⟨hjlt, hjget⟩ := pyFindIdx_spec '}' s.data.reverse j hr
  rw [List.length_reverse] at hjlt
  have hjget' : s.data[s.data.length - 1 - j]? = some '}' := by
    rw [← List.getElem?_reverse hjlt]
    exact hjget
  have hfind : pyFind s.data '{' = (i : Int) := by rw [pyFind, hf]
  have hrfind : pyRFind s.data '}' = ((s.data.length - 1 - j : Nat) : Int) := by rw [pyRFind, hr]
  set e : Nat := s.data.length - 1 - j with hedef
  have hie : i < e := by
    rw [hfind, hrfind] at hlt
    exact_mod_cast hlt
  have helt : e < s.data.length := by omega
  have hcond : pyFind s.data '{' ≠ -1 ∧ pyRFind s.data '}' ≠ -1
      ∧ pyRFind s.data '}' > pyFind s.data '{' := ⟨hs, he, by rw [hfind, hrfind]; exact_mod_cast hie⟩
  have hspan : (extractJsonSpan s).data
      = (s.data.drop i).take (e + 1 - i) := by
    simp only [extractJsonSpan]
    rw [hfind, hrfind, if_pos ⟨by omega, by omega, by omega⟩]
    simp
  have hk1 : 1 ≤ e + 1 - i := by omega
  refine ⟨?_, ?_, ?_⟩
  · rw [hspan, List.head?_eq_getElem?, List.getElem?_take, if_pos (by omega), List.getElem?_drop]
    simpa using higet
  · have hlen : ((s.data.drop i).take (e + 1 - i)).length = e + 1 - i := by
      rw [List.length_take, List.length_drop]
      omega
    rw [hspan, List.getLast?_eq_getElem?, hlen, List.getElem?_take, if_pos (by omega),
      List.getElem?_drop]
    have : i + (e + 1 - i - 1) = e := by omega
    rw [this]
    exact hjget'
  · refine ⟨s.data.take i, (s.data.drop i).drop (e + 1 - i), ?_⟩
    rw [hspan, List.append_assoc, List.take_append_drop, List.take_append_drop]

theorem strData_append (a b : String) : (a ++ b).data = a.data ++ b.data := rfl

theorem promptFileName_ne (i : Nat) (sc : String) (c : Candidate) :
    promptFileName i sc c ≠ "ai_verdicts.json" := by
  intro h
  have h0 := congrArg (fun s => s.data.head?) h
  rw [promptFileName] at h0
  simp only [strData_append, List.head?_append] at h0
  have hp : ("prompts/".data).head? = some 'p' := rfl
  rw [hp] at h0
  simp at h0

theorem reviewStep_out_path (tpl : String) (techniques : List (List (String × Json)))
    (live : Bool) (svc : String → Except String String) (skipBP : Bool) (i : Nat) (c : Candidate)
    (r : VerdictRecord) (w : String × String)
    (h : reviewStep tpl techniques live svc skipBP i c = .out r w) :
    w.1 ≠ "ai_verdicts.json" := by
  by_cases hskip : (skipBP = true ∧ (scs_from_candidate c).1 = "")
  · simp [reviewStep, hskip] at h
  · cases hbp : build_prompt tpl (scs_from_candidate c).1
        (if (scs_from_candidate c).1 = "" then []
         else retrieve_for_sc (scs_from_candidate c).1 techniques) c with
    | error e => simp [reviewStep, hskip, hbp] at h
    | ok prompt =>
        simp only [reviewStep, hskip, hbp] at h
        have hw : w = (promptFileName i (scs_from_candidate c).1 c, prompt) := by
          by_cases hsb : skipBP = true <;> by_cases hsc : (scs_from_candidate c).1 = "" <;>
            simp [hsb, hsc, hskip] at h ⊢ <;> simp_all
        rw [hw]
        exact promptFileName_ne i _ c

theorem getLast?_cons_of_some {α : Type} (w : α) (ws : List α) (x : α)
    (h : ws.getLast? = some x) : (w :: ws).getLast? = some x := by
  cases ws with
  | nil => simp at h
  | cons y ys => rw [List.getLast?_cons_cons]; exact h

theorem dropLast_cons_of_some {α : Type} (w : α) (ws : List α) (x : α)
    (h : ws.getLast? = some x) : (w :: ws).dropLast = w :: ws.dropLast := by
  cases ws with
  | nil => simp at h
  | cons y ys => rfl

theorem reviewGo_spec (tpl : String) (techniques : List (List (String × Json))) (live : Bool)
    (svc : String → Except String String) (skipBP : Bool) : ∀ (cs : List Candidate) (i : Nat)
    (recs : List VerdictRecord) (trace : List (String × String)),
    (match reviewGo tpl techniques live svc skipBP i cs recs trace with
     | (.error _, tr) => ∃ ws, tr = trace ++ ws ∧ ∀ w ∈ ws, w.1 ≠ "ai_verdicts.json"
     | (.ok rs, tr) => ∃ ws, tr = trace ++ ws
         ∧ ws.getLast? = some ("ai_verdicts.json", encodeResults rs)
         ∧ ∀ w ∈ ws.dropLast, w.1 ≠ "ai_verdicts.json") := by
  intro cs
  induction cs with
  | nil =>
      intro i recs trace
      exact ⟨[("ai_verdicts.json", encodeResults recs.reverse)], rfl, rfl, by simp⟩
  | cons c cs ih =>
      intro i recs trace
      cases hstep : reviewStep tpl techniques live svc skipBP i c with
      | skip => simpa [reviewGo, hstep] using ih (i + 1) recs trace
      | err e =>
          simp only [reviewGo, hstep]
          exact ⟨[], by simp, by simp⟩
      | out r w =>
          have hpath := reviewStep_out_path tpl techniques live svc skipBP i c r w hstep
          simp only [reviewGo, hstep]
          have hrec := ih (i + 1) (r :: recs) (trace ++ [w])
          cases hgo : reviewGo tpl techniques live svc skipBP (i + 1) cs (r :: recs) (trace ++ [w]) with
          | mk res tr =>
              rw [hgo] at hrec
              cases res with
              | error e =>
                  obtain ⟨ws, htr, hws⟩ := hrec
                  refine ⟨w :: ws, by simp [htr], ?_⟩
                  intro w' hw'
                  rcases List.mem_cons.mp hw' with rfl | hw'
                  · exact hpath
                  · exact hws w' hw'
              | ok rs =>
                  obtain ⟨ws, htr, hlast, hfront⟩ := hrec
                  refine ⟨w :: ws, by simp [htr], getLast?_cons_of_some w ws _ hlast, ?_⟩
                  rw [dropLast_cons_of_some w ws _ hlast]
                  intro w' hw'
                  rcases List.mem_cons.mp hw' with rfl | hw'
                  · exact hpath
                  · exact hfront w' hw'

theorem foldr_tagmatch_nil : ∀ (l : List String), (∀ t ∈ l, wcagTagMatch t = none) →
    l.foldr (fun t acc => match wcagTagMatch t with | some sc => sc :: acc | none => acc) []
      = [] := by
  intro l
  induction l with
  | nil => intro _; rfl
  | cons t ts ih =>
      intro h
      simp only [List.foldr_cons, h t (by simp), ih (fun t' ht' => h t' (by simp [ht']))]

theorem scs_from_candidate_fallback (c : Candidate)
    (h : ∀ t ∈ c.sc_list, wcagTagMatch t = none) :
    scs_from_candidate c = (norm_sc_from_topic c.topic, []) := by
  rw [scs_from_candidate]
  rw [foldr_tagmatch_nil c.sc_list h]
  rfl

/-! ## Claim theorems -/

/-- C1: for every scan result, among all candidates emitted by the candidate
selector (the must-review pass over `violations` and `incomplete` together
with the heuristic promotion from `passes`), no two candidates share the
same `(rule_id, selector)` pair; and on the must-review pass the emitted key
sequence is exactly the first-occurrence filter of the eligible node stream,
so when the same pair occurs more than once the first occurrence wins. -/
theorem claim_C1 (env : Env) (url : String) (payload : AxePayload) :
    (candKeys (run_axe_candidates env url payload)).Nodup
  ∧ candKeys (mustRules env url (payload.violations ++ payload.incomplete) []).1
      = firstOccurrences [] ((eligiblePairs (payload.violations ++ payload.incomplete)).map pairKey) := by
  constructor
  · exact (stageOK_comp (stageOK_mustRules env url (payload.violations ++ payload.incomplete))
      (stageOK_promoRules env url payload.passes) []).1
  · rw [mustRules_dedup, candKeys_map_mkOfPair, dedup_keys]

/-- C2: a node under a rule in `violations` or `incomplete` yields a
candidate if and only if its selector (first target entry) is non-empty and
its `(rule_id, selector)` key is not already taken (first occurrence wins);
the must-review pass is exactly the first-occurrence filter of the eligible
node stream mapped through the candidate constructor.  Every such candidate
has bucket `must_review`, every candidate promoted from `passes` has bucket
`semantic_review`, and nothing else is emitted. -/
theorem claim_C2 (env : Env) (url : String) (payload : AxePayload) :
    (mustRules env url (payload.violations ++ payload.incomplete) []).1
      = (dedupFirstGo [] (eligiblePairs (payload.violations ++ payload.incomplete))).1.map
          (mkOfPair env url)
  ∧ (∀ c ∈ (mustRules env url (payload.violations ++ payload.incomplete) []).1,
       c.bucket = "must_review")
  ∧ (∀ seen, ∀ c ∈ (promoRules env url payload.passes seen).1, c.bucket = "semantic_review")
  ∧ (∀ c ∈ run_axe_candidates env url payload,
       c.bucket = "must_review" ∨ c.bucket = "semantic_review") := by
  refine ⟨?_, ?_, ?_, ?_⟩
  · rw [mustRules_dedup]
  · intro c hc
    exact (mustRules_fields env url _ [] c hc).1
  · intro seen c hc
    exact (promoRules_fields env url _ seen c hc).1
  · intro c hc
    rcases List.mem_append.mp hc with hc | hc
    · exact Or.inl (mustRules_fields env url _ [] c hc).1
    · exact Or.inr (promoRules_fields env url _ _ c hc).1

/-- C3: the extracted success-criteria list consists, in tag order, of the
dotted forms of exactly those tags matched by the `wcag<d><d><d>` pattern on
the lowered tag (non-matching tags are ignored, never errors); a matched tag
is literally `wcag` followed by three digits (up to Python's `$`-before-
trailing-newline allowance) and yields the digits joined with dots; the
topic is `SC-` plus the first extracted criterion exactly when at least one
tag matched and is the literal `BEST_PRACTICE` otherwise, and every emitted
candidate's topic is computed that way from its stored criteria list. -/
theorem claim_C3 :
    (∀ tags, extract_scs tags = tags.filterMap wcagTagMatch)
  ∧ (∀ t sc, wcagTagMatch t = some sc → ∃ d1 d2 d3 rest, d1.isDigit ∧ d2.isDigit ∧ d3.isDigit
       ∧ (pyLower t).data = 'w' :: 'c' :: 'a' :: 'g' :: d1 :: d2 :: d3 :: rest
       ∧ (rest = [] ∨ rest = ['\n']) ∧ sc = String.mk [d1, '.', d2, '.', d3])
  ∧ (∀ scs : List String, (scs = [] → topicOf scs = "BEST_PRACTICE")
       ∧ (scs ≠ [] → topicOf scs = "SC-" ++ scs.headD ""))
  ∧ (∀ env url payload, ∀ c ∈ run_axe_candidates env url payload,
       c.topic = topicOf c.sc_list) := by
  refine ⟨extract_scs_eq, ?_, ?_, ?_⟩
  · intro t sc h
    exact wcagMatchAt_shape _ _ h
  · intro scs
    exact ⟨fun h => by rw [h]; rfl, topicOf_ne_empty scs⟩
  · intro env url payload c hc
    rcases List.mem_append.mp hc with hc | hc
    · exact (mustRules_fields env url _ [] c hc).2
    · exact (promoRules_fields env url _ _ c hc).2.2.2.2

/-- C4: heuristic promotion from `passes` considers only the rules
`image-alt` and `link-name`, inspects at most 30 nodes per rule (truncating
every rule's node list to 30 leaves the promotion unchanged), and — when the
scan result lists each rule id at most once, as axe results do — emits at
most one candidate per rule id; a promoted `link-name` candidate's rendered
text, trimmed and lowercased, is one of `click here`/`learn more`/`read
more`, and a node whose trimmed text is the mixed-case `Click Here` renders
as `click here`.  Conversely each loop promotes exactly the first node of
its stream with a non-empty selector, a qualifying text/name and a fresh
key (so a qualifying node is always promoted, and only the first one), and
at the concrete fixture — one passing `link-name` rule whose node renders
the mixed-case `Click Here` — the pass emits exactly one candidate, for
that node, in the `semantic_review` bucket. -/
theorem claim_C4 (env : Env) (url : String) (payload : AxePayload)
    (seen : List (String × String)) (hids : (payload.passes.map AxeRule.id).Nodup) :
    (∀ rid : String, ((promoRules env url payload.passes seen).1.filter
        (fun c => c.axe_rule_id = rid)).length ≤ 1)
  ∧ (∀ c ∈ (promoRules env url payload.passes seen).1,
       c.axe_rule_id ∈ (["image-alt", "link-name"] : List String))
  ∧ promoRules env url payload.passes seen = promoRules env url (payload.passes.map trunc30) seen
  ∧ (∀ c ∈ (promoRules env url payload.passes seen).1,
       c.axe_rule_id = "link-name" → linkTextOf env c.selector ∈ genericLinkTexts)
  ∧ (∀ sel : String, env.query sel = true → pyStrip (env.innerTextRaw sel) = "Click Here" →
       linkTextOf env sel = "click here")
  ∧ (∀ (r : AxeRule) (scs : List String) (topic : String) (ns : List AxeNode)
        (seen' : List (String × String)),
       promoImageAlt env url r scs topic ns seen'
         = match firstQualIA env r.id seen' ns with
           | some p => ([mkPromoCandidate env url r scs topic p.1 p.2], (r.id, p.2) :: seen')
           | none => ([], seen'))
  ∧ (∀ (r : AxeRule) (scs : List String) (topic : String) (ns : List AxeNode)
        (seen' : List (String × String)),
       promoLinkName env url r scs topic ns seen'
         = match firstQualLN env r.id seen' ns with
           | some p => ([mkPromoCandidate env url r scs topic p.1 p.2], (r.id, p.2) :: seen')
           | none => ([], seen'))
  ∧ (promoRules envW "u" payloadW.passes []).1.map
       (fun c => (c.axe_rule_id, c.selector, c.bucket))
     = [("link-name", "a#x", "semantic_review")] := by
  refine ⟨promoRules_count env url payload.passes seen hids, ?_, promoRules_trunc env url _ seen,
    ?_, ?_, fun r scs topic ns seen' => promoIA_emits env url r scs topic ns seen',
    fun r scs topic ns seen' => promoLN_emits env url r scs topic ns seen', rfl⟩
  · intro c hc
    exact (promoRules_fields env url _ seen c hc).2.2.1
  · intro c hc
    exact (promoRules_fields env url _ seen c hc).2.2.2.1
  · intro sel hq hstrip
    rw [linkTextOf, if_pos hq, hstrip]
    decide

/-- Witness for C4 at a concrete payload whose passes bucket holds one
`link-name` rule with a node rendering the mixed-case text `Click Here`. -/
theorem claim_C4_witness :
    (∀ rid : String, ((promoRules envW "u" payloadW.passes []).1.filter
        (fun c => c.axe_rule_id = rid)).length ≤ 1)
  ∧ (∀ c ∈ (promoRules envW "u" payloadW.passes []).1,
       c.axe_rule_id ∈ (["image-alt", "link-name"] : List String))
  ∧ promoRules envW "u" payloadW.passes [] = promoRules envW "u" (payloadW.passes.map trunc30) []
  ∧ (∀ c ∈ (promoRules envW "u" payloadW.passes []).1,
       c.axe_rule_id = "link-name" → linkTextOf envW c.selector ∈ genericLinkTexts)
  ∧ (∀ sel : String, envW.query sel = true → pyStrip (envW.innerTextRaw sel) = "Click Here" →
       linkTextOf envW sel = "click here")
  ∧ (∀ (r : AxeRule) (scs : List String) (topic : String) (ns : List AxeNode)
        (seen' : List (String × String)),
       promoImageAlt envW "u" r scs topic ns seen'
         = match firstQualIA envW r.id seen' ns with
           | some p => ([mkPromoCandidate envW "u" r scs topic p.1 p.2], (r.id, p.2) :: seen')
           | none => ([], seen'))
  ∧ (∀ (r : AxeRule) (scs : List String) (topic : String) (ns : List AxeNode)
        (seen' : List (String × String)),
       promoLinkName envW "u" r scs topic ns seen'
         = match firstQualLN envW r.id seen' ns with
           | some p => ([mkPromoCandidate envW "u" r scs topic p.1 p.2], (r.id, p.2) :: seen')
           | none => ([], seen'))
  ∧ (promoRules envW "u" payloadW.passes []).1.map
       (fun c => (c.axe_rule_id, c.selector, c.bucket))
     = [("link-name", "a#x", "semantic_review")] :=
  claim_C4 envW "u" payloadW [] (by decide)

/-- C5: prompt compilation is a pure function, so two evaluations on the same
(template, technique doc, candidate) triple produce byte-identical prompt
strings; the prompt hash is always exactly 16 hexadecimal characters,
content-addressed over the prompt text alone; and the hash a review step
records for a candidate is exactly the hash of the prompt text it persists. -/
theorem claim_C5 :
    (∀ tpl sc doc c, build_prompt tpl sc doc c = build_prompt tpl sc doc c)
  ∧ (∀ s : String, (promptHash s).length = 16 ∧ ∀ ch ∈ (promptHash s).data, ch ∈ hexDigitChars)
  ∧ (∀ tpl techniques live svc skipBP i c,
      match reviewStep tpl techniques live svc skipBP i c with
      | .out r w => r.prompt_hash = promptHash w.2
      | _ => True) := by
  refine ⟨fun _ _ _ _ => rfl, fun s => ⟨promptHash_length s, promptHash_hex s⟩, ?_⟩
  intro tpl techniques live svc skipBP i c
  by_cases hskip : (skipBP = true ∧ (scs_from_candidate c).1 = "")
  · simp [reviewStep, hskip]
  · cases hbp : build_prompt tpl (scs_from_candidate c).1
        (if (scs_from_candidate c).1 = "" then []
         else retrieve_for_sc (scs_from_candidate c).1 techniques) c with
    | error e => simp [reviewStep, hskip, hbp]
    | ok prompt => simp [reviewStep, hskip, hbp]

/-- C6: when interpolation hits a placeholder outside the fixed substitution
set (KeyError), or an unescaped literal structural brace (ValueError), the
prompt compiler raises the descriptive RuntimeError of the source — for a
KeyError the message contains the quoted offending placeholder — and a
positional/auto-numbered field's IndexError propagates unswallowed; content
is never silently dropped: a successfully compiled prompt is exactly the
interpolation result plus the appended diagnostics block.  The final
conjunct exhibits the error concretely for the template `\x7bbogus\x7d`. -/
theorem claim_C6 (tpl sc : String) (doc : List (String × Json)) (c : Candidate) :
    (∀ name, pyFormat tpl (fmtVars sc (effectiveDoc sc doc c) c) = .error (.keyErr name) →
       build_prompt tpl sc doc c = .error (.runtimeErr (keyErrMsg name))
       ∧ strIn (pyQuote name) (keyErrMsg name) = true)
  ∧ (∀ m, pyFormat tpl (fmtVars sc (effectiveDoc sc doc c) c) = .error (.valueErr m) →
       build_prompt tpl sc doc c = .error (.runtimeErr valueErrMsg))
  ∧ (∀ m, pyFormat tpl (fmtVars sc (effectiveDoc sc doc c) c) = .error (.indexErr m) →
       build_prompt tpl sc doc c = .error (.indexErr m))
  ∧ (∀ p, build_prompt tpl sc doc c = .ok p →
       ∃ q, pyFormat tpl (fmtVars sc (effectiveDoc sc doc c) c) = .ok q
         ∧ p = q ++ "\n\nAXE_DIAGNOSTICS:\n" ++ dumpsIndent2 (why_pack c))
  ∧ build_prompt "\x7bbogus\x7d" "" [] candW = .error (.runtimeErr (keyErrMsg "bogus")) := by
  refine ⟨?_, ?_, ?_, ?_, rfl⟩
  · intro name h
    refine ⟨by simp [build_prompt, h], ?_⟩
    rw [strIn]
    have hmid := hasSub_middle (pyQuote name).data
      "Template formatting error near placeholder ".data keyErrTail.data
    rw [← List.append_assoc] at hmid
    exact hmid
  · intro m h
    simp [build_prompt, h]
  · intro m h
    simp [build_prompt, h]
  · intro p hp
    rw [build_prompt] at hp
    cases hfmt : pyFormat tpl (fmtVars sc (effectiveDoc sc doc c) c) with
    | ok q =>
        rw [hfmt] at hp
        simp only [] at hp
        exact ⟨q, rfl, (Except.ok.inj hp).symm⟩
    | error e =>
        rw [hfmt] at hp
        cases e <;> simp at hp

/-- C7: in stub mode the adapter returns one constant record for every
prompt — type `informative`, verdict `needs-change`, confidence 0.5,
techniques `demo-only`, a demo-verdict reason; in live mode, an exception in
the service call, a parse failure of the extracted span, or a failed
required-key validation (in particular a verdict object missing one of the
five keys) each yield exactly the defined fallback record — confidence 0.4,
techniques `fallback`, a reason naming the failure — and the adapter's total
return type means no error ever propagates.  The last conjunct exhibits the
parse-failure fallback concretely. -/
theorem claim_C7 :
    (∀ svc : Except String String, run_llm false svc
      = Json.obj [("type", .str "informative"), ("verdict", .str "needs-change"),
          ("reason", .str "Demo verdict (no live LLM or A11Y_USE_LLM=0)."),
          ("confidence", .num ⟨5, 1⟩), ("techniques_used", .arr [.str "demo-only"])])
  ∧ (∀ e, run_llm_openai (.error e) = fallbackVerdict e)
  ∧ (∀ e, fallbackVerdict e
      = Json.obj [("type", .str "informative"), ("verdict", .str "needs-change"),
          ("reason", .str ("LLM fallback (parse/error): " ++ e)),
          ("confidence", .num ⟨4, 1⟩), ("techniques_used", .arr [.str "fallback"])])
  ∧ (∀ content e, parseJson (extractJsonSpan (pyStrip content)) = .error e →
       run_llm_openai (.ok content) = fallbackVerdict e)
  ∧ (∀ content data e, parseJson (extractJsonSpan (pyStrip content)) = .ok data →
       validateKeys requiredKeys data = .error e →
       run_llm_openai (.ok content) = fallbackVerdict e)
  ∧ (∀ kvs : List (String × Json), (∃ k ∈ requiredKeys, dictHas kvs k = false) →
       ∃ e, validateKeys requiredKeys (.obj kvs) = .error e)
  ∧ run_llm_openai (.ok "no json here") = fallbackVerdict "Expecting value" := by
  refine ⟨fun _ => rfl, fun _ => rfl, fun _ => rfl, ?_, ?_, validateKeys_missing requiredKeys, rfl⟩
  · intro content e h
    simp [run_llm_openai, h]
  · intro content data e hparse hval
    simp [run_llm_openai, hparse, hval]

/-- C8 counterexample: for the concrete response `c8text`, the first
balanced brace span is a complete verdict object that parses cleanly and
passes the five-key validation, yet the adapter returns the parse-error
fallback — because it slices from the first opening brace to the last
closing brace, not the first balanced span — so its techniques_used field is
`fallback` where the balanced-span verdict has an empty list. -/
theorem claim_C8_counterexample :
    firstBalancedSpan c8text = some c8span
  ∧ parseJson c8span = .ok c8good
  ∧ validateKeys requiredKeys c8good = .ok ()
  ∧ run_llm_openai (.ok c8text) = fallbackVerdict "Extra data"
  ∧ (match c8good with | .obj kvs => dictGet kvs "techniques_used" | _ => .null) = .arr []
  ∧ (match fallbackVerdict "Extra data" with
      | .obj kvs => dictGet kvs "techniques_used" | _ => .null) = .arr [.str "fallback"] :=
  ⟨rfl, rfl, rfl, rfl, rfl, rfl⟩

/-- C8 (amended): for every live-mode response text, the adapter extracts
the span from the first opening brace through the last closing brace of the
stripped response — the whole stripped text when either brace is missing or
they are out of order — so the extracted span begins with that first brace,
ends with that last brace, and is a contiguous piece of the response; it
parses that span and validates that all five required keys are present, and
the result is the parsed object exactly when parse and validation succeed:
when both succeed the parsed object is returned, and when the parse fails,
or the parse succeeds but validation fails, the fallback record for that
error is returned instead. -/
theorem claim_C8 (text : String) :
    (∀ data, parseJson (extractJsonSpan (pyStrip text)) = .ok data →
       validateKeys requiredKeys data = .ok () →
       run_llm_openai (.ok text) = data)
  ∧ (∀ e, parseJson (extractJsonSpan (pyStrip text)) = .error e →
       run_llm_openai (.ok text) = fallbackVerdict e)
  ∧ (∀ data e, parseJson (extractJsonSpan (pyStrip text)) = .ok data →
       validateKeys requiredKeys data = .error e →
       run_llm_openai (.ok text) = fallbackVerdict e)
  ∧ (∀ s : String, (pyFind s.data '{' = -1 ∨ pyRFind s.data '}' = -1 ∨
       ¬ pyFind s.data '{' < pyRFind s.data '}') → extractJsonSpan s = s)
  ∧ (∀ s : String, pyFind s.data '{' ≠ -1 → pyRFind s.data '}' ≠ -1 →
       pyFind s.data '{' < pyRFind s.data '}' →
       (extractJsonSpan s).data.head? = some '{'
       ∧ (extractJsonSpan s).data.getLast? = some '}'
       ∧ ∃ pre post, s.data = pre ++ (extractJsonSpan s).data ++ post) := by
  refine ⟨?_, ?_, ?_, ?_, ?_⟩
  · intro data hparse hval
    simp [run_llm_openai, hparse, hval]
  · intro e hparse
    simp [run_llm_openai, hparse]
  · intro data e hparse hval
    simp [run_llm_openai, hparse, hval]
  · intro s h
    have hneg : ¬ (pyFind s.data '{' ≠ -1 ∧ pyRFind s.data '}' ≠ -1
        ∧ pyRFind s.data '}' > pyFind s.data '{') := by
      rcases h with h | h | h
      · exact fun hc => hc.1 h
      · exact fun hc => hc.2.1 h
      · exact fun hc => h hc.2.2
    simp only [extractJsonSpan]
    rw [if_neg hneg]
  · intro s hs he hlt
    exact extractJsonSpan_spec s hs he hlt

/-- C9: the review pass writes the verdicts artifact exactly once, as one
full replacement holding all processed records, and it is the final write of
the pass — every earlier write is a per-candidate prompt file; when the pass
aborts on a prompt-builder error, no write to the verdicts artifact appears
in the trace at all, so a previously existing artifact is left unchanged and
a reader never observes a mixed old/new artifact. -/
theorem claim_C9 (tpl : String) (techniques : List (List (String × Json))) (live : Bool)
    (svc : String → Except String String) (skipBP : Bool) (candidates : List Candidate) :
    (match review tpl techniques live svc skipBP candidates with
     | (.error _, tr) => tr.filter (fun w => w.1 = "ai_verdicts.json") = []
     | (.ok rs, tr) => tr.filter (fun w => w.1 = "ai_verdicts.json")
           = [("ai_verdicts.json", encodeResults rs)]
         ∧ tr.getLast? = some ("ai_verdicts.json", encodeResults rs)) := by
  have h := reviewGo_spec tpl techniques live svc skipBP candidates 0 [] []
  rw [review]
  cases hgo : reviewGo tpl techniques live svc skipBP 0 candidates [] [] with
  | mk res tr =>
      rw [hgo] at h
      cases res with
      | error e =>
          obtain ⟨ws, htr, hws⟩ := h
          rw [List.nil_append] at htr
          subst htr
          show tr.filter (fun w => w.1 = "ai_verdicts.json") = []
          rw [List.filter_eq_nil_iff]
          intro w hw
          simpa using hws w hw
      | ok rs =>
          obtain ⟨ws, htr, hlast, hfront⟩ := h
          rw [List.nil_append] at htr
          subst htr
          show tr.filter (fun w => w.1 = "ai_verdicts.json")
              = [("ai_verdicts.json", encodeResults rs)]
            ∧ tr.getLast? = some ("ai_verdicts.json", encodeResults rs)
          have hne : tr ≠ [] := by
            intro hnil
            rw [hnil] at hlast
            simp at hlast
          have hlastval : tr.getLast hne = ("ai_verdicts.json", encodeResults rs) := by
            have h2 := List.getLast?_eq_getLast tr hne
            rw [h2] at hlast
            exact Option.some.inj hlast
          have hdecomp : tr.dropLast ++ [("ai_verdicts.json", encodeResults rs)] = tr := by
            have h3 := List.dropLast_append_getLast hne
            rwa [hlastval] at h3
          constructor
          · conv_lhs => rw [← hdecomp]
            rw [List.filter_append]
            have h1 : tr.dropLast.filter (fun w => w.1 = "ai_verdicts.json") = [] := by
              rw [List.filter_eq_nil_iff]
              intro w hw
              simpa using hfront w hw
            rw [h1]
            simp
          · exact hlast

/-- C10: for a candidate whose stored `sc_list` has no entry matching the
wcag tag pattern — which includes every dotted `x.y.z` string the scan step
itself writes into `sc_list` — the review pass derives the primary success
criterion from the topic string, accepting the forms `SC-1.1.1`, `1.1.1`
and `wcag111`; when that recovery yields a non-empty criterion the candidate
is treated as WCAG-mapped: the skip-non-WCAG flag does not exclude it, and
its verdict record's `SC` field carries the recovered value. -/
theorem claim_C10 :
    (norm_sc_from_topic "SC-1.1.1" = "1.1.1" ∧ norm_sc_from_topic "1.1.1" = "1.1.1"
      ∧ norm_sc_from_topic "wcag111" = "1.1.1")
  ∧ (∀ tags : List String, ∀ s ∈ extract_scs tags, wcagTagMatch s = none)
  ∧ (∀ c : Candidate, (∀ t ∈ c.sc_list, wcagTagMatch t = none) →
       scs_from_candidate c = (norm_sc_from_topic c.topic, []))
  ∧ (∀ tpl techniques live svc i c, (∀ t ∈ c.sc_list, wcagTagMatch t = none) →
       norm_sc_from_topic c.topic ≠ "" →
       reviewStep tpl techniques live svc true i c ≠ StepRes.skip
       ∧ (∀ r w, reviewStep tpl techniques live svc true i c = .out r w →
            r.SC = norm_sc_from_topic c.topic)) := by
  refine ⟨⟨rfl, rfl, rfl⟩, extract_scs_never_rematch, scs_from_candidate_fallback, ?_⟩
  intro tpl techniques live svc i c hall hne
  have hscs := scs_from_candidate_fallback c hall
  have hne' : (scs_from_candidate c).1 ≠ "" := by rw [hscs]; exact hne
  constructor
  · intro hskip
    cases hbp : build_prompt tpl (scs_from_candidate c).1
        (retrieve_for_sc (scs_from_candidate c).1 techniques) c with
    | error e => simp [reviewStep, hne', hbp] at hskip
    | ok prompt => simp [reviewStep, hne', hbp] at hskip
  · intro r w hw
    cases hbp : build_prompt tpl (scs_from_candidate c).1
        (retrieve_for_sc (scs_from_candidate c).1 techniques) c with
    | error e => simp [reviewStep, hne', hbp] at hw
    | ok prompt =>
        simp [reviewStep, hne', hbp] at hw
        obtain ⟨hr, -⟩ := hw
        subst hr
        simp [hscs]

end A11y

